import Mathlib

/-! DHT22 single-wire sensor driver: `dht22_read`

A shallow embedding of `src/dht22/dht22.c` and the properties of `dht22_read`.

Modelling decisions.

* The line is seen by the driver only through `THERM_READ()`.  A line behaviour is
  the sequence of levels returned by the successive polls of one call:
  `line n` is the level returned by the `n`-th `THERM_READ()` (counted from 0).
  The busy-wait delays (`_delay_us`, `_delay_ms`) carry no data and are not modelled.
* `retryCount` is a `uint8_t`: its increment is taken modulo 256.
* `currentHumidity`, `currentTemperature` are `int` accumulators that only ever hold
  the 16 bits set by `|= 1 << (15 - i)`; they are modelled by that bit pattern, a
  natural number below `2 ^ 16`.  `checkSum` is a `uint8_t` holding at most 8 bits.
* The `float` outputs are modelled by exact rationals (the values "taken as exact
  tenths"); rounding of the binary floating-point division is not modelled.
* `dht22_read` starts from the locals as their initialisations leave them.  A second
  embedding, `dht22_read_from`, carries every local variable explicitly from an
  arbitrary entry state through each assignment of the source, and returns the locals as
  the call leaves them; it is proved to return the outcome of `dht22_read`
  (theorem `dht22_read_from_fst`).
* The do-while loops are run on fuel; `none` means the fuel ran out.  It never does
  (theorem `waitWhile_cases`).
-/

namespace DHT22

/-- Modelled from the spec: the enumeration `DHT22_ERROR_t` is declared in `dht22.h`,
which is not among the sources.  Its values are the result kinds of the spec, under the
names `dht22_read` returns them by. -/
inductive DHT22_ERROR_t
  | DHT_ERROR_NONE
  | DHT_BUS_HUNG
  | DHT_ERROR_NOT_PRESENT
  | DHT_ERROR_ACK_TOO_LONG
  | DHT_ERROR_SYNC_TIMEOUT
  | DHT_ERROR_DATA_TIMEOUT
  | DHT_ERROR_CHECKSUM
  deriving DecidableEq, Repr

open DHT22_ERROR_t

/-- The macro of line 10: `#define DHT22_DATA_BIT_COUNT 41`. -/
def DHT22_DATA_BIT_COUNT : Nat := 41

/-- The macro of line 11: `#define MAX_LOW_BIT_TIME 10/2`.  It is only used as the right
operand of `>`, where the missing parentheses do not change the parse. -/
def MAX_LOW_BIT_TIME : Nat := 10 / 2

/-- The pin operations of lines 19-22 that `dht22_read` performs, as events. -/
inductive PinOp
  | THERM_INPUT_MODE
  | THERM_OUTPUT_MODE
  | THERM_LOW
  deriving DecidableEq, Repr

/-- A line behaviour: the level returned by the `n`-th `THERM_READ()` of the call. -/
abbrev Line := Nat → Bool

/-- How a do-while polling loop ends. -/
inductive Wait
  /-- The `while` test failed; `retryCount` polls were made by this loop. -/
  | done (retryCount : Nat) (polls : Nat)
  /-- The `return` inside the loop body was taken. -/
  | timeout (polls : Nat)
  deriving DecidableEq, Repr

/-- The polling loop used five times in `dht22_read` (lines 51-59, 74-82, 86-94,
101-109, 113-121):

    do {
      if (retryCount > limit) return ERR;
      retryCount++;
      _delay_us(2);
    } while (THERM_READ() == level);

with `level = false` for `while(!THERM_READ())` and `level = true` for
`while(THERM_READ())`.  `polls` counts the `THERM_READ()` calls made so far in the
whole call; the first argument after `limit` is the fuel. -/
def waitWhile (line : Line) (level : Bool) (limit : Nat) : Nat → Nat → Nat → Option Wait
  | 0, _, _ => none
  | fuel + 1, retryCount, polls =>
    if retryCount > limit then some (Wait.timeout polls)
    else
      let retryCount := (retryCount + 1) % 256
      if line polls = level then waitWhile line level limit fuel retryCount (polls + 1)
      else some (Wait.done retryCount (polls + 1))

/-- Fuel given to each polling loop: one unit per value of the 8-bit counter. -/
def loopFuel : Nat := 256

/-- The part of the machine state the acquisition works on: the local array
`bitTimes`, the number of polls made so far, and the pin operations performed. -/
structure Acq where
  bitTimes : List Nat
  polls : Nat
  pinOps : List PinOp
  deriving DecidableEq, Repr

/-- Either the acquisition is still going, or a `return` with an error was taken. -/
inductive Progress
  | running (st : Acq)
  | aborted (e : DHT22_ERROR_t) (st : Acq)
  deriving DecidableEq, Repr

/-- The body of the sampling loop for bit index `i` (lines 99-123). -/
def sampleBit (line : Line) (i : Nat) (st : Acq) : Option Progress :=
  match waitWhile line false 35 loopFuel 0 st.polls with
  | none => none
  | some (Wait.timeout p) =>
    some (Progress.aborted DHT_ERROR_SYNC_TIMEOUT { st with polls := p })
  | some (Wait.done _ p) =>
    match waitWhile line true 50 loopFuel 0 p with
    | none => none
    | some (Wait.timeout q) =>
      some (Progress.aborted DHT_ERROR_DATA_TIMEOUT { st with polls := q })
    | some (Wait.done retryCount q) =>
      some (Progress.running { st with bitTimes := st.bitTimes.set i retryCount, polls := q })

/-- The first `n` iterations `i = 0, ..., n - 1` of `for(i = 0; i < ...; i++)` at
lines 97-124, in order, stopping at the first `return`. -/
def sampleBits (line : Line) : Nat → Acq → Option Progress
  | 0, st => some (Progress.running st)
  | n + 1, st =>
    match sampleBits line n st with
    | some (Progress.running st1) => sampleBit line n st1
    | r => r

/-- Lines 42-94: clearing of `bitTimes`, idle wait, wake pulse, and the two waits on
the acknowledgement pulse. -/
def handshake (line : Line) : Option Progress :=
  let bitTimes := List.replicate DHT22_DATA_BIT_COUNT 0
  let ops1 := [PinOp.THERM_INPUT_MODE]
  match waitWhile line false 125 loopFuel 0 0 with
  | none => none
  | some (Wait.timeout p) => some (Progress.aborted DHT_BUS_HUNG ⟨bitTimes, p, ops1⟩)
  | some (Wait.done _ p) =>
    let ops2 := ops1 ++ [PinOp.THERM_LOW, PinOp.THERM_OUTPUT_MODE, PinOp.THERM_INPUT_MODE]
    match waitWhile line false 25 loopFuel 0 p with
    | none => none
    | some (Wait.timeout q) => some (Progress.aborted DHT_ERROR_NOT_PRESENT ⟨bitTimes, q, ops2⟩)
    | some (Wait.done _ q) =>
      match waitWhile line true 50 loopFuel 0 q with
      | none => none
      | some (Wait.timeout r) =>
        some (Progress.aborted DHT_ERROR_ACK_TOO_LONG ⟨bitTimes, r, ops2⟩)
      | some (Wait.done _ r) => some (Progress.running ⟨bitTimes, r, ops2⟩)

/-- Lines 42-124: everything up to the end of the sampling loop. -/
def acquire (line : Line) : Option Progress :=
  match handshake line with
  | some (Progress.running st) => sampleBits line DHT22_DATA_BIT_COUNT st
  | r => r

/-- The three bit-gathering loops of lines 132-152:

    for(i = 0; i < n; i++)
      if(bitTimes[i + offset] > MAX_LOW_BIT_TIME) cur |= (1 << (top - i));

starting from `cur = 0`. -/
def gatherBits (bitTimes : List Nat) (n offset top : Nat) : Nat :=
  (List.range n).foldl
    (fun cur i =>
      if bitTimes.getD (i + offset) 0 > MAX_LOW_BIT_TIME then cur ||| (1 <<< (top - i)) else cur)
    0

/-- The variable `currentHumidity` after the loop of lines 132-138. -/
def currentHumidity (bitTimes : List Nat) : Nat := gatherBits bitTimes 16 1 15

/-- The variable `currentTemperature` after the loop of lines 139-145. -/
def currentTemperature (bitTimes : List Nat) : Nat := gatherBits bitTimes 16 17 15

/-- The variable `checkSum` after the loop of lines 146-152. -/
def checkSum (bitTimes : List Nat) : Nat := gatherBits bitTimes 8 33 7

/-- What a call leaves behind: the returned code, the contents of `*temperature` and
`*humidity`, and (for reasoning) the final `bitTimes`, the number of polls made and
the pin operations performed. -/
structure Outcome where
  result : DHT22_ERROR_t
  temperature : ℚ
  humidity : ℚ
  bitTimes : List Nat
  polls : Nat
  pinOps : List PinOp
  deriving DecidableEq

/-- Lines 132-177: decoding of the 41 samples, the two stores through the output
pointers, and the checksum test. -/
def decode (st : Acq) : Outcome :=
  let currentHumidity := currentHumidity st.bitTimes
  let currentTemperature := currentTemperature st.bitTimes
  let checkSum := checkSum st.bitTimes
  -- line 154
  let humidity : ℚ := ((currentHumidity &&& 0x7FFF : ℕ) : ℚ) / 10
  -- lines 156-165
  let negative : Bool := currentTemperature &&& 0x8000 != 0
  let currentTemperature := if negative then currentTemperature &&& 0x7FFF else currentTemperature
  let temperature : ℚ :=
    if negative then ((currentTemperature : ℚ) / 10) * (-1) else (currentTemperature : ℚ) / 10
  -- lines 167-170, each part an `uint8_t`
  let csPart1 := (currentHumidity >>> 8) % 256
  let csPart2 := (currentHumidity &&& 0xFF) % 256
  let csPart3 := (currentTemperature >>> 8) % 256
  let csPart4 := (currentTemperature &&& 0xFF) % 256
  -- lines 172-177
  let result :=
    if checkSum ≠ ((csPart1 + csPart2 + csPart3 + csPart4) &&& 0xFF) then DHT_ERROR_CHECKSUM
    else DHT_ERROR_NONE
  { result := result, temperature := temperature, humidity := humidity,
    bitTimes := st.bitTimes, polls := st.polls, pinOps := st.pinOps }

/-- The function `dht22_read(float *temperature, float *humidity)` of lines 28-178.
The arguments `temperature` and `humidity` are the contents of the two output
locations before the call. -/
def dht22_read (line : Line) (temperature humidity : ℚ) : Option Outcome :=
  match acquire line with
  | none => none
  | some (Progress.aborted e st) =>
    some { result := e, temperature := temperature, humidity := humidity,
           bitTimes := st.bitTimes, polls := st.polls, pinOps := st.pinOps }
  | some (Progress.running st) => some (decode st)

/-! ## The decoding as the specification words it -/

/-- Bit classification as the specification states it: a sample is a logical 1 if its
poll count exceeds 5, else a logical 0. -/
def classify (sample : Nat) : Bool := decide (sample > 5)

/-- The unsigned integer whose binary digits are `bits`, most significant first. -/
def msbFirst (bits : List Bool) : Nat := bits.foldl (fun acc b => 2 * acc + b.toNat) 0

/-- Field extraction as the specification states it: the classified samples at indices
`first, ..., first + n - 1`, assembled most-significant bit first. -/
def specField (samples : List Nat) (first n : Nat) : Nat :=
  msbFirst ((List.range n).map (fun k => classify (samples.getD (first + k) 0)))

/-- The high byte of a 16-bit value. -/
def high_byte (v : Nat) : Nat := (v / 256) % 256

/-- The low byte of a 16-bit value. -/
def low_byte (v : Nat) : Nat := v % 256

/-- The checksum as the specification states it: the sum of the four bytes of the
humidity and temperature words as transmitted, modulo 256. -/
def specChecksum (H T : Nat) : Nat := (high_byte H + low_byte H + high_byte T + low_byte T) % 256

/-! ## Scripted lines -/

/-- The line that returns the listed levels in turn, and low for ever after. -/
def lineOf (levels : List Bool) : Line := fun n => levels.getD n false

/-- The levels of one data bit whose sample is `k`: one high poll ending the sync wait,
`k - 1` further high polls, and a low poll. -/
def pulse (k : Nat) : List Bool := true :: (List.replicate (k - 1) true ++ [false])

/-- The pulse of a bit: 8 polls for a one, 3 polls for a zero. -/
def bitPulse (b : Bool) : List Bool := pulse (if b then 8 else 3)

/-- The `n` low bits of `v`, most significant first. -/
def bitsMSB (n v : Nat) : List Bool := (List.range n).map (fun i => v.testBit (n - 1 - i))

/-- A clean transmission: line already high, acknowledgement seen at once, a leading
extra bit, then `h`, `t` and the checksum byte `c`, each most significant bit first. -/
def frame (h t c : Nat) : List Bool :=
  [true, true, false] ++
    (false :: (bitsMSB 16 h ++ bitsMSB 16 t ++ bitsMSB 8 c)).flatMap bitPulse

/-- The state in which the sampling loop ends on `frame h t c`: every one sampled as 8,
every zero as 3. -/
def frameAcq (h t c : Nat) : Acq :=
  { bitTimes := (false :: (bitsMSB 16 h ++ bitsMSB 16 t ++ bitsMSB 8 c)).map
      (fun b => if b then 8 else 3),
    polls := (frame h t c).length,
    pinOps := [PinOp.THERM_INPUT_MODE, PinOp.THERM_LOW, PinOp.THERM_OUTPUT_MODE,
      PinOp.THERM_INPUT_MODE] }

/-- A clean transmission like `frame h t c`, but whose leading extra bit is sampled as
`lead` polls. -/
def frameLead (lead h t c : Nat) : List Bool :=
  [true, true, false] ++ pulse lead ++
    (bitsMSB 16 h ++ bitsMSB 16 t ++ bitsMSB 8 c).flatMap bitPulse

/-! ## Further readings of the source -/

/-- The clearing loop of lines 42-45,
`for(i = 0; i < DHT22_DATA_BIT_COUNT; i++) bitTimes[i] = 0;`, run on an array that holds
whatever was left in its place before the call. -/
def clearBitTimes (stale : List Nat) : List Nat :=
  (List.range DHT22_DATA_BIT_COUNT).foldl (fun bitTimes i => bitTimes.set i 0) stale

/-- The bit that the sample at index `k` contributes to its field, read off the variables
as the loops of lines 132-152 leave them: bit `15 - (k - 1)` of `currentHumidity` for `k`
in 1..16, bit `15 - (k - 17)` of `currentTemperature` for `k` in 17..32, bit
`7 - (k - 33)` of `checkSum` for `k` in 33..40. -/
def contributedBit (bitTimes : List Nat) (k : Nat) : Bool :=
  if k ≤ 16 then (currentHumidity bitTimes).testBit (15 - (k - 1))
  else if k ≤ 32 then (currentTemperature bitTimes).testBit (15 - (k - 17))
  else (checkSum bitTimes).testBit (7 - (k - 33))

/-! ## The call with its local variables explicit -/

/-- The local variables of `dht22_read` (lines 30-36).  They are not initialised by
their declarations: at entry each holds whatever is in its place, for instance what an
earlier call left there. -/
structure Locals where
  retryCount : Nat
  bitTimes : List Nat
  currentHumidity : Nat
  currentTemperature : Nat
  checkSum : Nat
  csPart1 : Nat
  csPart2 : Nat
  csPart3 : Nat
  csPart4 : Nat
  i : Nat
  deriving DecidableEq, Repr

/-- The machine state in the course of a call: the locals, the number of polls made so
far and the pin operations performed. -/
structure Run where
  locals : Locals
  polls : Nat
  pinOps : List PinOp
  deriving DecidableEq, Repr

/-- How a polling loop run on the machine state ends. -/
inductive PollEnd
  /-- The `while` test failed. -/
  | left (m : Run)
  /-- The `return` inside the loop body was taken. -/
  | returned (m : Run)
  deriving DecidableEq, Repr

/-- The polling loop of `waitWhile`, run on the machine state: it starts from the value
`retryCount` holds, and leaves the final value in `retryCount`.  The argument after
`limit` is the fuel. -/
def pollLoop (line : Line) (level : Bool) (limit : Nat) : Nat → Run → Option PollEnd
  | 0, _ => none
  | fuel + 1, m =>
    if m.locals.retryCount > limit then some (PollEnd.returned m)
    else
      let locals := { m.locals with retryCount := (m.locals.retryCount + 1) % 256 }
      if line m.polls = level then
        pollLoop line level limit fuel { m with locals := locals, polls := m.polls + 1 }
      else some (PollEnd.left { m with locals := locals, polls := m.polls + 1 })

/-- Either the call is still going, or a `return` with an error was taken. -/
inductive RunProgress
  | running (m : Run)
  | aborted (e : DHT22_ERROR_t) (m : Run)
  deriving DecidableEq, Repr

/-- The assignment `retryCount = 0;` of lines 50, 73, 85, 100 and 112. -/
def resetRetryCount (m : Run) : Run :=
  { m with locals := { m.locals with retryCount := 0 } }

/-- Lines 38-48: the machine state after the initialisations at entry.  The three
accumulators are set to 0 and `bitTimes` is cleared by its loop, which leaves `i` at
`DHT22_DATA_BIT_COUNT`; the other locals keep what they held; the pin is made an input. -/
def entryRun (entry : Locals) : Run :=
  -- lines 38-40
  let locals := { entry with currentHumidity := 0, currentTemperature := 0, checkSum := 0 }
  -- lines 42-45
  let locals :=
    { locals with bitTimes := clearBitTimes locals.bitTimes, i := DHT22_DATA_BIT_COUNT }
  -- line 48
  { locals := locals, polls := 0, pinOps := [PinOp.THERM_INPUT_MODE] }

/-- Lines 50-94 on the machine state: idle wait, wake pulse and the two waits on the
acknowledgement pulse, each polling loop preceded by `retryCount = 0`. -/
def handshakeRun (line : Line) (m : Run) : Option RunProgress :=
  -- lines 50-59
  match pollLoop line false 125 loopFuel (resetRetryCount m) with
  | none => none
  | some (PollEnd.returned m) => some (RunProgress.aborted DHT_BUS_HUNG m)
  | some (PollEnd.left m) =>
    -- lines 65-70
    let m := { m with pinOps := m.pinOps ++
      [PinOp.THERM_LOW, PinOp.THERM_OUTPUT_MODE, PinOp.THERM_INPUT_MODE] }
    -- lines 73-82
    match pollLoop line false 25 loopFuel (resetRetryCount m) with
    | none => none
    | some (PollEnd.returned m) => some (RunProgress.aborted DHT_ERROR_NOT_PRESENT m)
    | some (PollEnd.left m) =>
      -- lines 85-94
      match pollLoop line true 50 loopFuel (resetRetryCount m) with
      | none => none
      | some (PollEnd.returned m) => some (RunProgress.aborted DHT_ERROR_ACK_TOO_LONG m)
      | some (PollEnd.left m) => some (RunProgress.running m)

/-- Lines 38-94 on the machine state, from the locals as they are at entry. -/
def handshakeFrom (entry : Locals) (line : Line) : Option RunProgress :=
  handshakeRun line (entryRun entry)

/-- The body of the sampling loop (lines 99-123) on the machine state; the bit index is
the value the loop variable `i` holds. -/
def sampleBitFrom (line : Line) (m : Run) : Option RunProgress :=
  match pollLoop line false 35 loopFuel (resetRetryCount m) with
  | none => none
  | some (PollEnd.returned m) => some (RunProgress.aborted DHT_ERROR_SYNC_TIMEOUT m)
  | some (PollEnd.left m) =>
    match pollLoop line true 50 loopFuel (resetRetryCount m) with
    | none => none
    | some (PollEnd.returned m) => some (RunProgress.aborted DHT_ERROR_DATA_TIMEOUT m)
    | some (PollEnd.left m) =>
      some (RunProgress.running
        { m with locals :=
          { m.locals with bitTimes := m.locals.bitTimes.set m.locals.i m.locals.retryCount } })

/-- The sampling loop `for(i = 0; i < ...; i++)` of lines 97-124 on the machine state,
up to the point where its test is reached with `i = n`: the assignment `i = 0`, then the
body and `i++` for `i = 0, ..., n - 1`, stopping at the first `return`. -/
def sampleBitsFrom (line : Line) : Nat → Run → Option RunProgress
  | 0, m => some (RunProgress.running { m with locals := { m.locals with i := 0 } })
  | n + 1, m =>
    match sampleBitsFrom line n m with
    | some (RunProgress.running m1) =>
      match sampleBitFrom line m1 with
      | some (RunProgress.running m2) =>
        some (RunProgress.running { m2 with locals := { m2.locals with i := m2.locals.i + 1 } })
      | r => r
    | r => r

/-- Lines 38-124 on the machine state. -/
def acquireFrom (entry : Locals) (line : Line) : Option RunProgress :=
  match handshakeFrom entry line with
  | some (RunProgress.running m) => sampleBitsFrom line DHT22_DATA_BIT_COUNT m
  | r => r

/-- A bit-gathering loop of lines 132-152 run from the value `cur` its accumulator
holds when the loop is entered. -/
def gatherBitsFrom (bitTimes : List Nat) (n offset top cur : Nat) : Nat :=
  (List.range n).foldl
    (fun cur i =>
      if bitTimes.getD (i + offset) 0 > MAX_LOW_BIT_TIME then cur ||| (1 <<< (top - i)) else cur)
    cur

/-- Lines 132-177 on the machine state: the outcome, and the locals as the call leaves
them. -/
def decodeFrom (m : Run) : Outcome × Locals :=
  let v := m.locals
  -- lines 132-152
  let v := { v with
    currentHumidity := gatherBitsFrom v.bitTimes 16 1 15 v.currentHumidity, i := 16 }
  let v := { v with
    currentTemperature := gatherBitsFrom v.bitTimes 16 17 15 v.currentTemperature, i := 16 }
  let v := { v with checkSum := gatherBitsFrom v.bitTimes 8 33 7 v.checkSum, i := 8 }
  -- line 154
  let humidity : ℚ := ((v.currentHumidity &&& 0x7FFF : ℕ) : ℚ) / 10
  -- lines 156-165
  let negative : Bool := v.currentTemperature &&& 0x8000 != 0
  let v := if negative then { v with currentTemperature := v.currentTemperature &&& 0x7FFF }
    else v
  let temperature : ℚ :=
    if negative then ((v.currentTemperature : ℚ) / 10) * (-1)
    else (v.currentTemperature : ℚ) / 10
  -- lines 167-170
  let v := { v with
    csPart1 := (v.currentHumidity >>> 8) % 256,
    csPart2 := (v.currentHumidity &&& 0xFF) % 256,
    csPart3 := (v.currentTemperature >>> 8) % 256,
    csPart4 := (v.currentTemperature &&& 0xFF) % 256 }
  -- lines 172-177
  let result :=
    if v.checkSum ≠ ((v.csPart1 + v.csPart2 + v.csPart3 + v.csPart4) &&& 0xFF) then
      DHT_ERROR_CHECKSUM
    else DHT_ERROR_NONE
  ({ result := result, temperature := temperature, humidity := humidity,
     bitTimes := v.bitTimes, polls := m.polls, pinOps := m.pinOps }, v)

/-- The function `dht22_read` entered with its locals holding `entry` and the output
locations holding `temperature` and `humidity`: the outcome of the call and the locals
as the call leaves them. -/
def dht22_read_from (entry : Locals) (line : Line) (temperature humidity : ℚ) :
    Option (Outcome × Locals) :=
  match acquireFrom entry line with
  | none => none
  | some (RunProgress.aborted e m) =>
    some ({ result := e, temperature := temperature, humidity := humidity,
            bitTimes := m.locals.bitTimes, polls := m.polls, pinOps := m.pinOps }, m.locals)
  | some (RunProgress.running m) => some (decodeFrom m)

/-- The part of the machine state that `Acq` keeps. -/
def Run.toAcq (m : Run) : Acq :=
  { bitTimes := m.locals.bitTimes, polls := m.polls, pinOps := m.pinOps }

/-- The machine state a progress value carries. -/
def RunProgress.run : RunProgress → Run
  | RunProgress.running m => m
  | RunProgress.aborted _ m => m

/-- The progress value with its machine state cut down to `Acq`. -/
def RunProgress.toProgress : RunProgress → Progress
  | RunProgress.running m => Progress.running m.toAcq
  | RunProgress.aborted e m => Progress.aborted e m.toAcq

/-- The machine state a polling loop ends in. -/
def PollEnd.run : PollEnd → Run
  | PollEnd.left m => m
  | PollEnd.returned m => m

/-- The end of a polling loop as `waitWhile` reports it. -/
def PollEnd.toWait : PollEnd → Wait
  | PollEnd.left m => Wait.done m.locals.retryCount m.polls
  | PollEnd.returned m => Wait.timeout m.polls

/-- Locals full of values other than those the call needs, as a stand-in for what an
earlier activity left behind. -/
def staleLocals : Locals :=
  { retryCount := 200, bitTimes := List.replicate 41 77, currentHumidity := 0xFFFF,
    currentTemperature := 0x1234, checkSum := 0xAB, csPart1 := 1, csPart2 := 2,
    csPart3 := 3, csPart4 := 4, i := 99 }

/-! ## The polling loops -/

theorem waitWhile_timeout_from (line : Line) (level : Bool) (limit : Nat) (hl : limit < 255) :
    ∀ fuel r p, r ≤ limit + 1 → limit + 2 ≤ fuel + r →
      (∀ k, k < limit + 1 - r → line (p + k) = level) →
      waitWhile line level limit fuel r p = some (Wait.timeout (p + (limit + 1 - r))) := by
  intro fuel
  induction fuel with
  | zero => intro r p h1 h2; omega
  | succ fuel ih =>
    intro r p h1 h2 hlow
    rw [waitWhile]
    by_cases hr : r > limit
    · have : limit + 1 - r = 0 := by omega
      simp [hr, this]
    · have h0 : line p = level := by simpa using hlow 0 (by omega)
      have hmod : (r + 1) % 256 = r + 1 := Nat.mod_eq_of_lt (by omega)
      simp only [hr, if_false, h0, if_true, hmod]
      rw [ih (r + 1) (p + 1) (by omega) (by omega)]
      · congr 2; omega
      · intro k hk
        have := hlow (k + 1) (by omega)
        rwa [show p + 1 + k = p + (k + 1) by omega]

theorem waitWhile_done_from (line : Line) (level : Bool) (limit : Nat) (hl : limit < 255) :
    ∀ fuel r p j, r + j ≤ limit → limit + 2 ≤ fuel + r →
      (∀ k, k < j → line (p + k) = level) → line (p + j) ≠ level →
      waitWhile line level limit fuel r p = some (Wait.done (r + j + 1) (p + j + 1)) := by
  intro fuel
  induction fuel with
  | zero => intro r p j h1 h2; omega
  | succ fuel ih =>
    intro r p j h1 h2 hlow hhigh
    rw [waitWhile]
    have hr : ¬ r > limit := by omega
    have hmod : (r + 1) % 256 = r + 1 := Nat.mod_eq_of_lt (by omega)
    simp only [hr, if_false, hmod]
    cases j with
    | zero =>
      have : ¬ line p = level := by simpa using hhigh
      simp [this]
    | succ j =>
      have h0 : line p = level := by simpa using hlow 0 (by omega)
      simp only [h0, if_true]
      rw [ih (r + 1) (p + 1) j (by omega) (by omega)]
      · congr 2 <;> omega
      · intro k hk
        have := hlow (k + 1) (by omega)
        rwa [show p + 1 + k = p + (k + 1) by omega]
      · rwa [show p + 1 + j = p + (j + 1) by omega]

/-- Either the first `n` polls from `p` all read `level`, or there is a first one that does not. -/
theorem first_other_level (line : Line) (level : Bool) (p : Nat) :
    ∀ n, (∀ k, k < n → line (p + k) = level) ∨
      ∃ j, j < n ∧ (∀ k, k < j → line (p + k) = level) ∧ line (p + j) ≠ level := by
  intro n
  induction n with
  | zero => left; intro k hk; omega
  | succ n ih =>
    rcases ih with h | ⟨j, hj, h1, h2⟩
    · by_cases hn : line (p + n) = level
      · left
        intro k hk
        rcases Nat.lt_succ_iff_lt_or_eq.mp hk with h3 | h3
        · exact h k h3
        · rw [h3]; exact hn
      · right; exact ⟨n, by omega, h, hn⟩
    · right; exact ⟨j, by omega, h1, h2⟩

theorem waitWhile_timeout (line : Line) (level : Bool) (limit : Nat) (hl : limit < 255) (p : Nat)
    (h : ∀ k, k < limit + 1 → line (p + k) = level) :
    waitWhile line level limit loopFuel 0 p = some (Wait.timeout (p + (limit + 1))) := by
  have := waitWhile_timeout_from line level limit hl loopFuel 0 p (by omega)
    (by unfold loopFuel; omega) (by simpa using h)
  simpa using this

theorem waitWhile_done (line : Line) (level : Bool) (limit : Nat) (hl : limit < 255) (p j : Nat)
    (hj : j ≤ limit) (h : ∀ k, k < j → line (p + k) = level) (hj2 : line (p + j) ≠ level) :
    waitWhile line level limit loopFuel 0 p = some (Wait.done (j + 1) (p + j + 1)) := by
  have := waitWhile_done_from line level limit hl loopFuel 0 p j (by omega)
    (by unfold loopFuel; omega) h hj2
  simpa using this

/-- The polling loops never run out of fuel, and end in one of the two ways. -/
theorem waitWhile_cases (line : Line) (level : Bool) (limit : Nat) (hl : limit < 255) (p : Nat) :
    ((∀ k, k < limit + 1 → line (p + k) = level) ∧
      waitWhile line level limit loopFuel 0 p = some (Wait.timeout (p + (limit + 1)))) ∨
    ∃ j, j ≤ limit ∧ (∀ k, k < j → line (p + k) = level) ∧ line (p + j) ≠ level ∧
      waitWhile line level limit loopFuel 0 p = some (Wait.done (j + 1) (p + j + 1)) := by
  rcases first_other_level line level p (limit + 1) with h | ⟨j, hj, h1, h2⟩
  · left; exact ⟨h, waitWhile_timeout line level limit hl p h⟩
  · right
    exact ⟨j, by omega, h1, h2, waitWhile_done line level limit hl p j (by omega) h1 h2⟩

/-! ## The sampling loop -/

/-- The three ways the body of the sampling loop can go, in terms of the line. -/
theorem sampleBit_cases (line : Line) (i : Nat) (st : Acq) :
    ((∀ k, k < 36 → line (st.polls + k) = false) ∧
      sampleBit line i st =
        some (Progress.aborted DHT_ERROR_SYNC_TIMEOUT { st with polls := st.polls + 36 })) ∨
    ∃ j, j ≤ 35 ∧ (∀ k, k < j → line (st.polls + k) = false) ∧ line (st.polls + j) = true ∧
      waitWhile line false 35 loopFuel 0 st.polls = some (Wait.done (j + 1) (st.polls + j + 1)) ∧
      (((∀ k, k < 51 → line (st.polls + j + 1 + k) = true) ∧
        sampleBit line i st =
          some (Progress.aborted DHT_ERROR_DATA_TIMEOUT
            { st with polls := st.polls + j + 1 + 51 })) ∨
      ∃ m, m ≤ 50 ∧ (∀ k, k < m → line (st.polls + j + 1 + k) = true) ∧
        line (st.polls + j + 1 + m) = false ∧
        sampleBit line i st =
          some (Progress.running
            { st with bitTimes := st.bitTimes.set i (m + 1),
                      polls := st.polls + j + 1 + m + 1 })) := by
  rcases waitWhile_cases line false 35 (by omega) st.polls with ⟨h, hw⟩ | ⟨j, hj, h1, h2, hw⟩
  · left
    exact ⟨h, by simp [sampleBit, hw]⟩
  · right
    refine ⟨j, hj, h1, by simpa using h2, hw, ?_⟩
    rcases waitWhile_cases line true 50 (by omega) (st.polls + j + 1) with
      ⟨h, hw2⟩ | ⟨m, hm, h3, h4, hw2⟩
    · left
      exact ⟨h, by simp [sampleBit, hw, hw2]⟩
    · right
      exact ⟨m, hm, h3, by simpa using h4, by simp [sampleBit, hw, hw2]⟩

theorem sampleBits_succ_of_running (line : Line) (n : Nat) (st st1 : Acq)
    (h : sampleBits line n st = some (Progress.running st1)) :
    sampleBits line (n + 1) st = sampleBit line n st1 := by
  simp [sampleBits, h]

theorem sampleBits_succ_of_aborted (line : Line) (n : Nat) (st st1 : Acq) (e : DHT22_ERROR_t)
    (h : sampleBits line n st = some (Progress.aborted e st1)) :
    sampleBits line (n + 1) st = some (Progress.aborted e st1) := by
  simp [sampleBits, h]

/-- Once the sampling loop has returned, later iterations do not run. -/
theorem sampleBits_aborted_mono (line : Line) (n : Nat) (st st1 : Acq) (e : DHT22_ERROR_t)
    (h : sampleBits line n st = some (Progress.aborted e st1)) :
    ∀ m, n ≤ m → sampleBits line m st = some (Progress.aborted e st1) := by
  intro m hm
  induction m with
  | zero =>
    have : n = 0 := by omega
    subst this; exact h
  | succ m ih =>
    rcases Nat.lt_or_ge n (m + 1) with h1 | h1
    · exact sampleBits_succ_of_aborted line m st st1 e (ih (by omega))
    · have : n = m + 1 := by omega
      subst this; exact h

/-- What the sampling loop keeps: it always yields a result; it leaves the pin
operations alone, keeps the length of `bitTimes`, does not touch the entries from index
`n` on, only adds polls, and returns no error but the two timeouts. -/
theorem sampleBits_inv (line : Line) (st : Acq) :
    ∀ n, ∃ r, sampleBits line n st = some r ∧
      match r with
      | Progress.running s =>
        s.pinOps = st.pinOps ∧ s.bitTimes.length = st.bitTimes.length ∧ st.polls ≤ s.polls ∧
          ∀ j, n ≤ j → s.bitTimes.getD j 0 = st.bitTimes.getD j 0
      | Progress.aborted e s =>
        (e = DHT_ERROR_SYNC_TIMEOUT ∨ e = DHT_ERROR_DATA_TIMEOUT) ∧
          s.pinOps = st.pinOps ∧ s.bitTimes.length = st.bitTimes.length ∧ st.polls ≤ s.polls := by
  intro n
  induction n with
  | zero => exact ⟨Progress.running st, rfl, by simp⟩
  | succ n ih =>
    obtain ⟨r, hr, hinv⟩ := ih
    cases r with
    | aborted e s =>
      exact ⟨Progress.aborted e s, sampleBits_succ_of_aborted line n st s e hr, hinv⟩
    | running s =>
      obtain ⟨h1, h2, h3, h4⟩ := hinv
      rw [sampleBits_succ_of_running line n st s hr]
      rcases sampleBit_cases line n s with ⟨_, hs⟩ | ⟨j, _, _, _, _, ⟨_, hs⟩ | ⟨m, _, _, _, hs⟩⟩
      · exact ⟨_, hs, Or.inl rfl, h1, h2, by simp; omega⟩
      · exact ⟨_, hs, Or.inr rfl, h1, h2, by simp; omega⟩
      · refine ⟨_, hs, h1, by simpa using h2, by simp; omega, ?_⟩
        intro k hk
        have hne : n ≠ k := by omega
        simp only [List.getD_eq_getElem?_getD, List.getElem?_set_ne hne]
        simpa using h4 k (by omega)

theorem sampleBits_total (line : Line) (n : Nat) (st : Acq) :
    ∃ r, sampleBits line n st = some r := by
  obtain ⟨r, hr, _⟩ := sampleBits_inv line st n
  exact ⟨r, hr⟩

/-! ## The handshake -/

/-- The ways the handshake can go: bus hung, or the idle wait ends at a first high poll
and the call goes on with the wake pulse. -/
theorem handshake_cases (line : Line) :
    ((∀ k, k < 126 → line k = false) ∧
      handshake line = some (Progress.aborted DHT_BUS_HUNG
        ⟨List.replicate DHT22_DATA_BIT_COUNT 0, 126, [PinOp.THERM_INPUT_MODE]⟩)) ∨
    ∃ j, j ≤ 125 ∧ (∀ k, k < j → line k = false) ∧ line j = true ∧
      waitWhile line false 125 loopFuel 0 0 = some (Wait.done (j + 1) (j + 1)) ∧
      ∃ r, handshake line = some r ∧
        match r with
        | Progress.running s =>
          s.bitTimes = List.replicate DHT22_DATA_BIT_COUNT 0 ∧
            s.pinOps = [PinOp.THERM_INPUT_MODE, PinOp.THERM_LOW, PinOp.THERM_OUTPUT_MODE,
              PinOp.THERM_INPUT_MODE] ∧ j + 1 ≤ s.polls
        | Progress.aborted e s =>
          (e = DHT_ERROR_NOT_PRESENT ∨ e = DHT_ERROR_ACK_TOO_LONG) ∧
            s.bitTimes = List.replicate DHT22_DATA_BIT_COUNT 0 ∧
            s.pinOps = [PinOp.THERM_INPUT_MODE, PinOp.THERM_LOW, PinOp.THERM_OUTPUT_MODE,
              PinOp.THERM_INPUT_MODE] ∧ j + 1 ≤ s.polls := by
  rcases waitWhile_cases line false 125 (by omega) 0 with ⟨h, hw⟩ | ⟨j, hj, h1, h2, hw⟩
  · left
    refine ⟨by simpa using h, ?_⟩
    simp only [handshake, hw]
  · right
    simp only [Nat.zero_add] at h1 h2 hw
    refine ⟨j, hj, h1, by simpa using h2, hw, ?_⟩
    rcases waitWhile_cases line false 25 (by omega) (j + 1) with ⟨_, hw2⟩ | ⟨j2, _, _, _, hw2⟩
    · refine ⟨Progress.aborted DHT_ERROR_NOT_PRESENT
        ⟨List.replicate DHT22_DATA_BIT_COUNT 0, j + 1 + (25 + 1), [PinOp.THERM_INPUT_MODE, PinOp.THERM_LOW, PinOp.THERM_OUTPUT_MODE,
          PinOp.THERM_INPUT_MODE]⟩, ?_, Or.inl rfl, rfl, rfl,
          by show j + 1 ≤ j + 1 + (25 + 1); omega⟩
      simp only [handshake, hw, hw2]
      rfl
    · rcases waitWhile_cases line true 50 (by omega) (j + 1 + j2 + 1) with
        ⟨_, hw3⟩ | ⟨j3, _, _, _, hw3⟩
      · refine ⟨Progress.aborted DHT_ERROR_ACK_TOO_LONG
          ⟨List.replicate DHT22_DATA_BIT_COUNT 0, j + 1 + j2 + 1 + (50 + 1), [PinOp.THERM_INPUT_MODE, PinOp.THERM_LOW, PinOp.THERM_OUTPUT_MODE,
          PinOp.THERM_INPUT_MODE]⟩, ?_,
          Or.inr rfl, rfl, rfl, by show j + 1 ≤ j + 1 + j2 + 1 + (50 + 1); omega⟩
        simp only [handshake, hw, hw2, hw3]
        rfl
      · refine ⟨Progress.running
          ⟨List.replicate DHT22_DATA_BIT_COUNT 0, j + 1 + j2 + 1 + j3 + 1, [PinOp.THERM_INPUT_MODE, PinOp.THERM_LOW, PinOp.THERM_OUTPUT_MODE,
          PinOp.THERM_INPUT_MODE]⟩, ?_, rfl, rfl,
          by show j + 1 ≤ j + 1 + j2 + 1 + j3 + 1; omega⟩
        simp only [handshake, hw, hw2, hw3]
        rfl

/-! ## The whole call -/

theorem decode_result (st : Acq) :
    (decode st).result = DHT_ERROR_CHECKSUM ∨ (decode st).result = DHT_ERROR_NONE := by
  simp only [decode]
  split_ifs <;> simp

theorem decode_frame (st : Acq) :
    (decode st).bitTimes = st.bitTimes ∧ (decode st).polls = st.polls ∧
      (decode st).pinOps = st.pinOps := ⟨rfl, rfl, rfl⟩

theorem dht22_read_of_acquire_running (line : Line) (t h : ℚ) (st : Acq)
    (ha : acquire line = some (Progress.running st)) :
    dht22_read line t h = some (decode st) := by
  simp [dht22_read, ha]

theorem dht22_read_of_acquire_aborted (line : Line) (t h : ℚ) (e : DHT22_ERROR_t) (st : Acq)
    (ha : acquire line = some (Progress.aborted e st)) :
    dht22_read line t h = some ⟨e, t, h, st.bitTimes, st.polls, st.pinOps⟩ := by
  simp [dht22_read, ha]

theorem acquire_of_handshake_running (line : Line) (st : Acq)
    (hs : handshake line = some (Progress.running st)) :
    acquire line = sampleBits line DHT22_DATA_BIT_COUNT st := by
  simp [acquire, hs]

theorem acquire_of_handshake_aborted (line : Line) (e : DHT22_ERROR_t) (st : Acq)
    (hs : handshake line = some (Progress.aborted e st)) :
    acquire line = some (Progress.aborted e st) := by
  simp [acquire, hs]

/-- After a handshake that went through, the call returns one of the two sampling
timeouts, the checksum error or success, and has performed the wake pulse. -/
theorem dht22_read_of_handshake_running (line : Line) (t h : ℚ) (st : Acq)
    (hs : handshake line = some (Progress.running st)) :
    ∃ o, dht22_read line t h = some o ∧ o.pinOps = st.pinOps ∧ st.polls ≤ o.polls ∧
      (o.result = DHT_ERROR_SYNC_TIMEOUT ∨ o.result = DHT_ERROR_DATA_TIMEOUT ∨
        o.result = DHT_ERROR_CHECKSUM ∨ o.result = DHT_ERROR_NONE) := by
  obtain ⟨r, hr, hinv⟩ := sampleBits_inv line st DHT22_DATA_BIT_COUNT
  rw [← acquire_of_handshake_running line st hs] at hr
  cases r with
  | running s =>
    refine ⟨_, dht22_read_of_acquire_running line t h s hr, hinv.1, hinv.2.2.1, ?_⟩
    rcases decode_result s with h1 | h1
    · exact Or.inr (Or.inr (Or.inl h1))
    · exact Or.inr (Or.inr (Or.inr h1))
  | aborted e s =>
    refine ⟨_, dht22_read_of_acquire_aborted line t h e s hr, hinv.2.1, hinv.2.2.2, ?_⟩
    rcases hinv.1 with h1 | h1
    · exact Or.inl h1
    · exact Or.inr (Or.inl h1)

theorem dht22_read_of_handshake_aborted (line : Line) (t h : ℚ) (e : DHT22_ERROR_t) (st : Acq)
    (hs : handshake line = some (Progress.aborted e st)) :
    dht22_read line t h = some ⟨e, t, h, st.bitTimes, st.polls, st.pinOps⟩ :=
  dht22_read_of_acquire_aborted line t h e st (acquire_of_handshake_aborted line e st hs)

/-- The handshake once the idle wait and the wait for the start of the acknowledgement
have ended: only the wait for the end of the acknowledgement is left. -/
theorem handshake_of_ack_start (line : Line) (r p r2 q : Nat)
    (hidle : waitWhile line false 125 loopFuel 0 0 = some (Wait.done r p))
    (hack : waitWhile line false 25 loopFuel 0 p = some (Wait.done r2 q)) :
    (∀ q3, waitWhile line true 50 loopFuel 0 q = some (Wait.timeout q3) →
      handshake line = some (Progress.aborted DHT_ERROR_ACK_TOO_LONG
        ⟨List.replicate DHT22_DATA_BIT_COUNT 0, q3,
          [PinOp.THERM_INPUT_MODE, PinOp.THERM_LOW, PinOp.THERM_OUTPUT_MODE,
            PinOp.THERM_INPUT_MODE]⟩)) ∧
    (∀ r3 q3, waitWhile line true 50 loopFuel 0 q = some (Wait.done r3 q3) →
      handshake line = some (Progress.running
        ⟨List.replicate DHT22_DATA_BIT_COUNT 0, q3,
          [PinOp.THERM_INPUT_MODE, PinOp.THERM_LOW, PinOp.THERM_OUTPUT_MODE,
            PinOp.THERM_INPUT_MODE]⟩)) := by
  constructor
  · intro q3 hw
    simp only [handshake, hidle, hack, hw]
    rfl
  · intro r3 q3 hw
    simp only [handshake, hidle, hack, hw]
    rfl

/-- After the wait for the start of the acknowledgement has ended, the call returns
neither bus hung nor not present, and returns ack too long exactly when the next 51
polls all read high. -/
theorem dht22_read_of_ack_start (line : Line) (t h : ℚ) (r p r2 q : Nat)
    (hidle : waitWhile line false 125 loopFuel 0 0 = some (Wait.done r p))
    (hack : waitWhile line false 25 loopFuel 0 p = some (Wait.done r2 q)) :
    ∃ o, dht22_read line t h = some o ∧ o.result ≠ DHT_BUS_HUNG ∧
      o.result ≠ DHT_ERROR_NOT_PRESENT ∧
      (o.result = DHT_ERROR_ACK_TOO_LONG ↔ ∀ k, k < 51 → line (q + k) = true) := by
  obtain ⟨hto, hdn⟩ := handshake_of_ack_start line r p r2 q hidle hack
  rcases waitWhile_cases line true 50 (by omega) q with ⟨hall, hw⟩ | ⟨j, hj, h1, h2, hw⟩
  · refine ⟨_, dht22_read_of_handshake_aborted line t h _ _ (hto _ hw), ?_, ?_, ?_⟩
    · simp
    · simp
    · simpa using hall
  · obtain ⟨o, ho, _, _, hres⟩ := dht22_read_of_handshake_running line t h _ (hdn _ _ hw)
    refine ⟨o, ho, ?_, ?_, ?_⟩
    · rcases hres with h3 | h3 | h3 | h3 <;> simp [h3]
    · rcases hres with h3 | h3 | h3 | h3 <;> simp [h3]
    · constructor
      · intro h4
        rcases hres with h3 | h3 | h3 | h3 <;> simp [h3] at h4
      · intro h4
        exact absurd (h4 j (by omega)) h2

/-- After the idle wait has ended, the call does not return bus hung, and returns
not present exactly when the next 26 polls all read low. -/
theorem dht22_read_of_idle (line : Line) (t h : ℚ) (r p : Nat)
    (hidle : waitWhile line false 125 loopFuel 0 0 = some (Wait.done r p)) :
    ∃ o, dht22_read line t h = some o ∧ o.result ≠ DHT_BUS_HUNG ∧
      (o.result = DHT_ERROR_NOT_PRESENT ↔ ∀ k, k < 26 → line (p + k) = false) := by
  rcases waitWhile_cases line false 25 (by omega) p with ⟨hall, hw⟩ | ⟨j, hj, h1, h2, hw⟩
  · have hh : handshake line = some (Progress.aborted DHT_ERROR_NOT_PRESENT
        ⟨List.replicate DHT22_DATA_BIT_COUNT 0, p + (25 + 1),
          [PinOp.THERM_INPUT_MODE, PinOp.THERM_LOW, PinOp.THERM_OUTPUT_MODE,
            PinOp.THERM_INPUT_MODE]⟩) := by
      simp only [handshake, hidle, hw]
      rfl
    refine ⟨_, dht22_read_of_handshake_aborted line t h _ _ hh, ?_, ?_⟩
    · simp
    · simpa using hall
  · obtain ⟨o, ho, hb, hn, _⟩ := dht22_read_of_ack_start line t h r p _ _ hidle hw
    refine ⟨o, ho, hb, ?_⟩
    constructor
    · intro h4; exact absurd h4 hn
    · intro h4; exact absurd (h4 j (by omega)) h2

/-! ## Bit gathering -/

theorem gatherBits_succ (bt : List Nat) (n off top : Nat) :
    gatherBits bt (n + 1) off top =
      if bt.getD (n + off) 0 > MAX_LOW_BIT_TIME then gatherBits bt n off top ||| (1 <<< (top - n))
      else gatherBits bt n off top := by
  simp [gatherBits, List.range_succ, List.foldl_append]

theorem testBit_gatherBits (bt : List Nat) (off top : Nat) :
    ∀ n, n ≤ top + 1 → ∀ j, (gatherBits bt n off top).testBit j =
      (decide (j ≤ top) && decide (top - j < n) &&
        decide (bt.getD (top - j + off) 0 > MAX_LOW_BIT_TIME)) := by
  intro n
  induction n with
  | zero => intro _ j; simp [gatherBits]
  | succ n ih =>
    intro hn j
    rw [gatherBits_succ]
    have ih1 := ih (by omega) j
    by_cases hj : top - n = j
    · have h1 : j ≤ top := by omega
      have h2 : top - j = n := by omega
      split
      · rename_i hc
        simp [Nat.testBit_or, ih1, Nat.one_shiftLeft, Nat.testBit_two_pow, hj, h1, h2]
        simpa using hc
      · rename_i hc
        simp [ih1, h1, h2]
        simpa using hc
    · split
      · rw [Nat.testBit_or, ih1, Nat.one_shiftLeft, Nat.testBit_two_pow]
        by_cases h1 : j ≤ top
        · have h3 : (top - j < n + 1) ↔ (top - j < n) := by omega
          simp [hj, h1, h3]
        · simp [hj, h1]
      · rw [ih1]
        by_cases h1 : j ≤ top
        · have h3 : (top - j < n + 1) ↔ (top - j < n) := by omega
          simp [h1, h3]
        · simp [h1]

theorem msbFirst_append (l : List Bool) (b : Bool) :
    msbFirst (l ++ [b]) = 2 * msbFirst l + b.toNat := by
  simp [msbFirst, List.foldl_append]

theorem specField_succ (bt : List Nat) (first n : Nat) :
    specField bt first (n + 1) = 2 * specField bt first n + (classify (bt.getD (first + n) 0)).toNat := by
  simp [specField, List.range_succ, msbFirst_append]

theorem testBit_specField (bt : List Nat) (first : Nat) :
    ∀ n j, (specField bt first n).testBit j =
      (decide (j < n) && classify (bt.getD (first + (n - 1 - j)) 0)) := by
  intro n
  induction n with
  | zero => intro j; simp [specField, msbFirst]
  | succ n ih =>
    intro j
    rw [specField_succ]
    cases j with
    | zero =>
      rw [Nat.testBit_zero]
      have h2 : n + 1 - 1 - 0 = n := by omega
      rw [h2]
      cases classify (bt.getD (first + n) 0) <;> simp [Nat.add_mod]
    | succ j =>
      rw [Nat.testBit_succ]
      have : (2 * specField bt first n + (classify (bt.getD (first + n) 0)).toNat) / 2 =
          specField bt first n := by
        cases classify (bt.getD (first + n) 0) <;>
          simp only [Bool.toNat_true, Bool.toNat_false] <;> omega
      rw [this, ih j]
      have h2 : n + 1 - 1 - (j + 1) = n - 1 - j := by omega
      rw [h2]
      by_cases h : j < n <;> simp [h]

theorem gatherBits_eq_specField (bt : List Nat) (n off : Nat) :
    gatherBits bt n off (n - 1) = specField bt off n := by
  apply Nat.eq_of_testBit_eq
  intro j
  cases n with
  | zero => simp [gatherBits, specField, msbFirst]
  | succ n =>
    rw [testBit_gatherBits bt off (n + 1 - 1) (n + 1) (by omega) j, testBit_specField]
    by_cases h : j ≤ n
    · have h1 : n + 1 - 1 - j < n + 1 := by omega
      have h2 : j < n + 1 := by omega
      have h3 : j ≤ n + 1 - 1 := by omega
      simp [h1, h2, h3, classify, MAX_LOW_BIT_TIME, Nat.add_comm]
      intro _
      omega
    · have h2 : ¬ j < n + 1 := by omega
      have h3 : ¬ j ≤ n + 1 - 1 := by omega
      simp [h2, h3]
      intro h4
      omega

theorem specField_eq_of_encode (bt : List Nat) (first n v : Nat) (hv : v < 2 ^ n)
    (h : ∀ k, k < n → (bt.getD (first + k) 0 > 5 ↔ v.testBit (n - 1 - k) = true)) :
    specField bt first n = v := by
  apply Nat.eq_of_testBit_eq
  intro j
  rw [testBit_specField]
  by_cases hj : j < n
  · have := h (n - 1 - j) (by omega)
    have h2 : n - 1 - (n - 1 - j) = j := by omega
    rw [h2] at this
    simp only [hj, decide_True, Bool.true_and, classify]
    cases hb : v.testBit j
    · simp [hb] at this; simpa using this
    · simp [hb] at this; simpa using this
  · have : v.testBit j = false := by
      apply Nat.testBit_lt_two_pow
      calc v < 2 ^ n := hv
        _ ≤ 2 ^ j := Nat.pow_le_pow_right (by omega) (by omega)
    simp [hj, this]

theorem handshake_running_bitTimes (line : Line) (st : Acq)
    (hs : handshake line = some (Progress.running st)) :
    st.bitTimes = List.replicate DHT22_DATA_BIT_COUNT 0 := by
  rcases handshake_cases line with ⟨_, hh⟩ | ⟨j, _, _, _, _, r, hr, hinv⟩
  · rw [hs] at hh; simp at hh
  · rw [hs] at hr
    simp only [Option.some.injEq] at hr
    subst hr
    exact hinv.1

/-- Entries written by the first `n` iterations of the sampling loop are not changed by
later iterations, whether the loop completes or returns early. -/
theorem sampleBits_later (line : Line) (st s : Acq) (n : Nat)
    (h : sampleBits line n st = some (Progress.running s)) :
    ∀ m, n ≤ m → ∃ r, sampleBits line m st = some r ∧
      match r with
      | Progress.running s2 => ∀ j, j < n → s2.bitTimes.getD j 0 = s.bitTimes.getD j 0
      | Progress.aborted _ s2 => ∀ j, j < n → s2.bitTimes.getD j 0 = s.bitTimes.getD j 0 := by
  intro m hm
  induction m with
  | zero =>
    have : n = 0 := by omega
    subst this
    exact ⟨_, h, by intro j hj; omega⟩
  | succ m ih =>
    rcases Nat.lt_or_ge n (m + 1) with h1 | h1
    · obtain ⟨r, hr, hinv⟩ := ih (by omega)
      cases r with
      | aborted e s2 => exact ⟨_, sampleBits_succ_of_aborted line m st s2 e hr, hinv⟩
      | running s2 =>
        rw [sampleBits_succ_of_running line m st s2 hr]
        rcases sampleBit_cases line m s2 with
          ⟨_, hs⟩ | ⟨j, _, _, _, _, ⟨_, hs⟩ | ⟨k, _, _, _, hs⟩⟩
        · exact ⟨_, hs, hinv⟩
        · exact ⟨_, hs, hinv⟩
        · refine ⟨_, hs, ?_⟩
          intro i hi
          have hne : m ≠ i := by omega
          simp only [List.getD_eq_getElem?_getD, List.getElem?_set_ne hne]
          simpa using hinv i hi
    · have : n = m + 1 := by omega
      subst this
      exact ⟨_, h, by intro j _; rfl⟩

/-! ## Bytes and masks -/

theorem and_255 (x : Nat) : x &&& 255 = x % 256 :=
  Nat.and_pow_two_sub_one_eq_mod x 8

theorem and_32767 (x : Nat) : x &&& 32767 = x % 32768 :=
  Nat.and_pow_two_sub_one_eq_mod x 15

theorem shiftRight_8 (x : Nat) : x >>> 8 = x / 256 :=
  Nat.shiftRight_eq_div_pow x 8

/-- The test `currentTemperature & 0x8000` of line 156 is the test of bit 15. -/
theorem and_32768_ne_zero (x : Nat) : (x &&& 32768 != 0) = x.testBit 15 := by
  cases hb : x.testBit 15
  · have : x &&& 32768 = 0 := by
      apply Nat.eq_of_testBit_eq
      intro j
      rw [Nat.testBit_and, show (32768 : Nat) = 2 ^ 15 by norm_num, Nat.testBit_two_pow]
      by_cases hj : 15 = j
      · subst hj; simp [hb]
      · simp [hj]
    simp [this]
  · have : (x &&& 32768).testBit 15 = true := by
      rw [Nat.testBit_and, show (32768 : Nat) = 2 ^ 15 by norm_num, Nat.testBit_two_pow]
      simp [hb]
    have hne : x &&& 32768 ≠ 0 := by
      intro h0
      rw [h0] at this
      simp at this
    simpa using hne

/-- The sum tested at line 172, in terms of the spec's bytes. -/
theorem code_sum_eq (x y : Nat) :
    ((x >>> 8) % 256 + (x &&& 0xFF) % 256 + (y >>> 8) % 256 + (y &&& 0xFF) % 256) &&& 0xFF =
      specChecksum x y := by
  simp only [and_255, shiftRight_8, specChecksum, high_byte, low_byte, Nat.mod_mod]

theorem gatherBits_lt (bt : List Nat) (n off : Nat) : gatherBits bt n off (n - 1) < 2 ^ n := by
  apply Nat.lt_pow_two_of_testBit
  intro j hj
  cases n with
  | zero => simp [gatherBits]
  | succ n =>
    rw [testBit_gatherBits bt off (n + 1 - 1) (n + 1) (by omega) j]
    have : ¬ j ≤ n + 1 - 1 := by omega
    simp [this]
    intro h1
    omega

/-! ## The decoded fields -/

theorem decode_humidity (st : Acq) :
    (decode st).humidity = ((specField st.bitTimes 1 16 &&& 0x7FFF : ℕ) : ℚ) / 10 := by
  simp only [decode, currentHumidity, gatherBits_eq_specField st.bitTimes 16 1]

theorem decode_temperature (st : Acq) :
    (decode st).temperature =
      if (specField st.bitTimes 17 16).testBit 15 = true then
        -(((specField st.bitTimes 17 16 &&& 0x7FFF : ℕ) : ℚ) / 10)
      else ((specField st.bitTimes 17 16 : ℕ) : ℚ) / 10 := by
  simp only [decode, currentTemperature, gatherBits_eq_specField st.bitTimes 16 17,
    and_32768_ne_zero]
  split <;> simp

/-- The checksum test of line 172 as the code makes it: the temperature word enters the
sum after the assignment of line 159, its bit 15 cleared when it was set. -/
theorem decode_result_iff (st : Acq) :
    (decode st).result = DHT_ERROR_NONE ↔
      specField st.bitTimes 33 8 =
        specChecksum (specField st.bitTimes 1 16)
          (if (specField st.bitTimes 17 16).testBit 15 = true
            then specField st.bitTimes 17 16 &&& 0x7FFF else specField st.bitTimes 17 16) := by
  simp only [decode, currentTemperature, currentHumidity, checkSum,
    gatherBits_eq_specField st.bitTimes 16 17, gatherBits_eq_specField st.bitTimes 16 1,
    gatherBits_eq_specField st.bitTimes 8 33, and_32768_ne_zero, code_sum_eq]
  split_ifs <;> simp_all

/-! ## Outcomes of the whole call -/

/-- The call always returns; an early return never carries success or the checksum
error. -/
theorem acquire_cases (line : Line) :
    ∃ r, acquire line = some r ∧
      match r with
      | Progress.running _ => True
      | Progress.aborted e _ =>
        e = DHT_BUS_HUNG ∨ e = DHT_ERROR_NOT_PRESENT ∨ e = DHT_ERROR_ACK_TOO_LONG ∨
          e = DHT_ERROR_SYNC_TIMEOUT ∨ e = DHT_ERROR_DATA_TIMEOUT := by
  rcases handshake_cases line with ⟨_, hh⟩ | ⟨j, _, _, _, _, r, hr, hinv⟩
  · exact ⟨_, acquire_of_handshake_aborted line _ _ hh, Or.inl rfl⟩
  · cases r with
    | aborted e s =>
      refine ⟨_, acquire_of_handshake_aborted line _ _ hr, ?_⟩
      rcases hinv.1 with h1 | h1
      · exact Or.inr (Or.inl h1)
      · exact Or.inr (Or.inr (Or.inl h1))
    | running s =>
      obtain ⟨r2, hr2, hinv2⟩ := sampleBits_inv line s DHT22_DATA_BIT_COUNT
      rw [← acquire_of_handshake_running line s hr] at hr2
      cases r2 with
      | running s2 => exact ⟨_, hr2, trivial⟩
      | aborted e s2 =>
        refine ⟨_, hr2, ?_⟩
        rcases hinv2.1 with h1 | h1
        · exact Or.inr (Or.inr (Or.inr (Or.inl h1)))
        · exact Or.inr (Or.inr (Or.inr (Or.inr h1)))

/-- The outcome of a call is either an early return that leaves the outputs alone, or
the decoding of 41 acquired samples. -/
theorem dht22_read_cases (line : Line) (t h : ℚ) :
    (∃ e st, acquire line = some (Progress.aborted e st) ∧
      (e = DHT_BUS_HUNG ∨ e = DHT_ERROR_NOT_PRESENT ∨ e = DHT_ERROR_ACK_TOO_LONG ∨
          e = DHT_ERROR_SYNC_TIMEOUT ∨ e = DHT_ERROR_DATA_TIMEOUT) ∧
      dht22_read line t h = some ⟨e, t, h, st.bitTimes, st.polls, st.pinOps⟩) ∨
    ∃ st, acquire line = some (Progress.running st) ∧
      dht22_read line t h = some (decode st) := by
  obtain ⟨r, hr, hinv⟩ := acquire_cases line
  cases r with
  | running s => exact Or.inr ⟨s, hr, dht22_read_of_acquire_running line t h s hr⟩
  | aborted e s => exact Or.inl ⟨e, s, hr, hinv, dht22_read_of_acquire_aborted line t h e s hr⟩


/-! ## Clean transmissions -/

set_option maxRecDepth 100000

theorem acquire_frame_a :
    acquire (lineOf (frame 0x01F4 0x00C8 0xBD)) =
      some (Progress.running (frameAcq 0x01F4 0x00C8 0xBD)) := by decide

theorem acquire_frame_b :
    acquire (lineOf (frame 0x01F4 0x80C8 0x3D)) =
      some (Progress.running (frameAcq 0x01F4 0x80C8 0x3D)) := by decide

theorem acquire_frame_c :
    acquire (lineOf (frame 0x01F4 0x80C8 0xBD)) =
      some (Progress.running (frameAcq 0x01F4 0x80C8 0xBD)) := by decide

theorem acquire_frame_d :
    acquire (lineOf (frame 0x01F4 0x00C8 0x42)) =
      some (Progress.running (frameAcq 0x01F4 0x00C8 0x42)) := by decide

/-! ## Decoding, checksum and outputs (C1-C5) -/

/-- C1 (checksum over the transmitted bytes), evaluated where the code departs from it.
On the clean transmission of humidity word 0x01F4, temperature word 0x80C8 and checksum
byte 0xBD all 41 samples are acquired; the transmitted checksum 0xBD differs from the
sum 0x3D of the four transmitted bytes, and `dht22_read` returns `DHT_ERROR_NONE`, not
`DHT_ERROR_CHECKSUM`. -/
theorem C1_checksum_failing_input :
    ∃ st o, acquire (lineOf (frame 0x01F4 0x80C8 0xBD)) = some (Progress.running st) ∧
      dht22_read (lineOf (frame 0x01F4 0x80C8 0xBD)) 0 0 = some o ∧
      specField st.bitTimes 1 16 = 0x01F4 ∧ specField st.bitTimes 17 16 = 0x80C8 ∧
      specField st.bitTimes 33 8 = 0xBD ∧
      specChecksum (specField st.bitTimes 1 16) (specField st.bitTimes 17 16) = 0x3D ∧
      o.result = DHT_ERROR_NONE :=
  ⟨frameAcq 0x01F4 0x80C8 0xBD, decode (frameAcq 0x01F4 0x80C8 0xBD), acquire_frame_c,
    dht22_read_of_acquire_running _ 0 0 _ acquire_frame_c,
    by decide, by decide, by decide, by decide, by decide⟩

/-- C2 (values on success).  Whenever `dht22_read` returns `DHT_ERROR_NONE`, with `H`
the word assembled most-significant bit first from the classified samples 1..16 and `T`
the one from samples 17..32, the humidity delivered is `(H & 0x7FFF) / 10` and the
temperature delivered is `T / 10` when bit 15 of `T` is clear and `-((T & 0x7FFF) / 10)`
when it is set. -/
theorem C2_values_on_success (line : Line) (t h : ℚ) (o : Outcome)
    (hres : dht22_read line t h = some o) (hok : o.result = DHT_ERROR_NONE) :
    o.humidity = ((specField o.bitTimes 1 16 &&& 0x7FFF : ℕ) : ℚ) / 10 ∧
    o.temperature =
      if (specField o.bitTimes 17 16).testBit 15 = true then
        -(((specField o.bitTimes 17 16 &&& 0x7FFF : ℕ) : ℚ) / 10)
      else ((specField o.bitTimes 17 16 : ℕ) : ℚ) / 10 := by
  rcases dht22_read_cases line t h with ⟨e, st, _, he, hr⟩ | ⟨st, _, hr⟩
  · have : o = _ := Option.some.inj (hres.symm.trans hr)
    subst this
    simp only at hok
    subst hok
    simp at he
  · have : o = _ := Option.some.inj (hres.symm.trans hr)
    subst this
    exact ⟨decode_humidity st, decode_temperature st⟩

/-- Witness for C2: the clean transmission of 0x01F4, 0x00C8 with checksum 0xBD. -/
theorem C2_values_on_success_witness :
    ∃ o, dht22_read (lineOf (frame 0x01F4 0x00C8 0xBD)) 0 0 = some o ∧
      o.result = DHT_ERROR_NONE ∧
      o.humidity = ((specField o.bitTimes 1 16 &&& 0x7FFF : ℕ) : ℚ) / 10 ∧
      o.temperature =
        if (specField o.bitTimes 17 16).testBit 15 = true then
          -(((specField o.bitTimes 17 16 &&& 0x7FFF : ℕ) : ℚ) / 10)
        else ((specField o.bitTimes 17 16 : ℕ) : ℚ) / 10 :=
  ⟨decode (frameAcq 0x01F4 0x00C8 0xBD),
    dht22_read_of_acquire_running _ 0 0 _ acquire_frame_a, by decide,
    C2_values_on_success (lineOf (frame 0x01F4 0x00C8 0xBD)) 0 0 _
      (dht22_read_of_acquire_running _ 0 0 _ acquire_frame_a) (by decide)⟩

/-- C3 (round trip, non-negative temperature).  Let `H` be a 16-bit word and `T` a
16-bit word with bit 15 clear.  On every line on which all 41 samples are acquired and
samples 1..40 encode, most-significant bit first and with more than 5 polls for a one
and at most 5 for a zero, the bits of `H`, then `T`, then the sum of the four bytes of
`H` and `T` modulo 256, `dht22_read` returns `DHT_ERROR_NONE` with humidity
`(H & 0x7FFF) / 10` and temperature `T / 10`. -/
theorem C3_round_trip (line : Line) (t h : ℚ) (H T : Nat) (hH : H < 65536) (hT : T < 65536)
    (hsign : T.testBit 15 = false) (st : Acq)
    (hacq : acquire line = some (Progress.running st))
    (hh : ∀ k, k < 16 → (st.bitTimes.getD (1 + k) 0 > 5 ↔ H.testBit (15 - k) = true))
    (ht : ∀ k, k < 16 → (st.bitTimes.getD (17 + k) 0 > 5 ↔ T.testBit (15 - k) = true))
    (hc : ∀ k, k < 8 →
      (st.bitTimes.getD (33 + k) 0 > 5 ↔ (specChecksum H T).testBit (7 - k) = true)) :
    ∃ o, dht22_read line t h = some o ∧ o.result = DHT_ERROR_NONE ∧
      o.humidity = ((H &&& 0x7FFF : ℕ) : ℚ) / 10 ∧ o.temperature = (T : ℚ) / 10 := by
  have h1 : specField st.bitTimes 1 16 = H :=
    specField_eq_of_encode st.bitTimes 1 16 H (by norm_num; exact hH) hh
  have h2 : specField st.bitTimes 17 16 = T :=
    specField_eq_of_encode st.bitTimes 17 16 T (by norm_num; exact hT) ht
  have h3 : specField st.bitTimes 33 8 = specChecksum H T :=
    specField_eq_of_encode st.bitTimes 33 8 (specChecksum H T)
      (by unfold specChecksum; norm_num; omega) hc
  refine ⟨decode st, dht22_read_of_acquire_running line t h st hacq, ?_, ?_, ?_⟩
  · rw [decode_result_iff, h1, h2, h3, hsign]
    simp
  · rw [decode_humidity, h1]
  · rw [decode_temperature, h2, hsign]
    simp

/-- Witness for C3: `H = 0x01F4`, `T = 0x00C8`, checksum `0xBD` give humidity 50.0 and
temperature 20.0, with success. -/
theorem C3_round_trip_witness :
    specChecksum 0x01F4 0x00C8 = 0xBD ∧
    ∃ o, dht22_read (lineOf (frame 0x01F4 0x00C8 0xBD)) 0 0 = some o ∧
      o.result = DHT_ERROR_NONE ∧ o.humidity = 50 ∧ o.temperature = 20 := by
  refine ⟨by decide, ?_⟩
  obtain ⟨o, h1, h2, h3, h4⟩ :=
    C3_round_trip (lineOf (frame 0x01F4 0x00C8 0xBD)) 0 0 0x01F4 0x00C8 (by decide) (by decide)
      (by decide) (frameAcq 0x01F4 0x00C8 0xBD) acquire_frame_a (by decide) (by decide)
      (by decide)
  refine ⟨o, h1, h2, ?_, ?_⟩
  · rw [h3, show (0x01F4 &&& 0x7FFF : ℕ) = 500 by decide]
    norm_num
  · rw [h4]
    norm_num

/-- C4 (negative temperature), evaluated where the code departs from it.  On the clean
transmission of `H = 0x01F4`, `T = 0x80C8` and the checksum `0x3D` computed over the four
transmitted bytes, all 41 samples are acquired and encode these words, and `dht22_read`
returns `DHT_ERROR_CHECKSUM`, not success. -/
theorem C4_negative_temperature_failing_input :
    specChecksum 0x01F4 0x80C8 = 0x3D ∧
    ∃ st o, acquire (lineOf (frame 0x01F4 0x80C8 0x3D)) = some (Progress.running st) ∧
      dht22_read (lineOf (frame 0x01F4 0x80C8 0x3D)) 0 0 = some o ∧
      specField st.bitTimes 1 16 = 0x01F4 ∧ specField st.bitTimes 17 16 = 0x80C8 ∧
      specField st.bitTimes 33 8 = 0x3D ∧
      o.result = DHT_ERROR_CHECKSUM :=
  ⟨by decide, frameAcq 0x01F4 0x80C8 0x3D, decode (frameAcq 0x01F4 0x80C8 0x3D),
    acquire_frame_b, dht22_read_of_acquire_running _ 0 0 _ acquire_frame_b,
    by decide, by decide, by decide, by decide⟩

/-- C5 as stated fails: on the clean transmission of 0x01F4, 0x00C8 with the checksum
byte flipped (0x42 for 0xBD) the call returns `DHT_ERROR_CHECKSUM`, and the outputs,
both 0 before the call, hold 20 and 50 after it. -/
theorem C5_no_partial_results_counterexample :
    ∃ o, dht22_read (lineOf (frame 0x01F4 0x00C8 0x42)) 0 0 = some o ∧
      o.result = DHT_ERROR_CHECKSUM ∧ o.temperature = 20 ∧ o.humidity = 50 ∧
      ¬ (o.temperature = 0 ∧ o.humidity = 0) := by
  have ht : (decode (frameAcq 0x01F4 0x00C8 0x42)).temperature = 20 := by
    rw [decode_temperature,
      show specField (frameAcq 0x01F4 0x00C8 0x42).bitTimes 17 16 = 200 by decide,
      if_neg (by decide)]
    norm_num
  have hh : (decode (frameAcq 0x01F4 0x00C8 0x42)).humidity = 50 := by
    rw [decode_humidity,
      show specField (frameAcq 0x01F4 0x00C8 0x42).bitTimes 1 16 = 500 by decide,
      show (500 &&& 0x7FFF : ℕ) = 500 by decide]
    norm_num
  refine ⟨decode (frameAcq 0x01F4 0x00C8 0x42),
    dht22_read_of_acquire_running _ 0 0 _ acquire_frame_d, by decide, ht, hh, ?_⟩
  rw [ht, hh]
  norm_num

/-- C5 as amended.  When `dht22_read` returns one of the five timeouts (bus hung, not
present, ack too long, sync timeout, data timeout), both outputs are exactly as they were
before the call.  When it returns the checksum error or success, all 41 samples were
acquired and both outputs have been overwritten with the values decoded from them. -/
theorem C5_outputs_amended (line : Line) (t h : ℚ) (o : Outcome)
    (hres : dht22_read line t h = some o) :
    ((o.result = DHT_BUS_HUNG ∨ o.result = DHT_ERROR_NOT_PRESENT ∨
        o.result = DHT_ERROR_ACK_TOO_LONG ∨ o.result = DHT_ERROR_SYNC_TIMEOUT ∨
        o.result = DHT_ERROR_DATA_TIMEOUT) →
      o.temperature = t ∧ o.humidity = h) ∧
    ((o.result = DHT_ERROR_CHECKSUM ∨ o.result = DHT_ERROR_NONE) →
      o.humidity = ((specField o.bitTimes 1 16 &&& 0x7FFF : ℕ) : ℚ) / 10 ∧
      o.temperature =
        if (specField o.bitTimes 17 16).testBit 15 = true then
          -(((specField o.bitTimes 17 16 &&& 0x7FFF : ℕ) : ℚ) / 10)
        else ((specField o.bitTimes 17 16 : ℕ) : ℚ) / 10) := by
  rcases dht22_read_cases line t h with ⟨e, st, _, he, hr⟩ | ⟨st, _, hr⟩
  · have : o = _ := Option.some.inj (hres.symm.trans hr)
    subst this
    refine ⟨fun _ => ⟨rfl, rfl⟩, ?_⟩
    intro h1
    simp only at h1
    rcases h1 with h1 | h1 <;> subst h1 <;> simp at he
  · have : o = _ := Option.some.inj (hres.symm.trans hr)
    subst this
    refine ⟨?_, fun _ => ⟨decode_humidity st, decode_temperature st⟩⟩
    intro h1
    rcases decode_result st with h2 | h2 <;> rw [h2] at h1 <;> simp at h1

/-- Witness for C5 as amended: a line stuck low (bus hung) leaves the outputs 7 and 9
in place. -/
theorem C5_outputs_amended_witness :
    ∃ o, dht22_read (lineOf []) 7 9 = some o ∧ o.result = DHT_BUS_HUNG ∧
      o.temperature = 7 ∧ o.humidity = 9 :=
  ⟨_, dht22_read_of_handshake_aborted (lineOf []) 7 9 DHT_BUS_HUNG
      ⟨List.replicate DHT22_DATA_BIT_COUNT 0, 126, [PinOp.THERM_INPUT_MODE]⟩ (by decide),
    rfl,
    (C5_outputs_amended (lineOf []) 7 9 _
      (dht22_read_of_handshake_aborted (lineOf []) 7 9 DHT_BUS_HUNG
        ⟨List.replicate DHT22_DATA_BIT_COUNT 0, 126, [PinOp.THERM_INPUT_MODE]⟩ (by decide))).1
      (Or.inl rfl)⟩

/-! ## The handshake bounds (C6-C8) -/

/-- C6 (idle-wait bound).  `dht22_read` returns `DHT_BUS_HUNG` if and only if each of the
first 126 polls reads low.  If the line first reads high on poll `j + 1` with
`j + 1 <= 126`, the idle wait ends after exactly `j + 1` polls, and the call goes on to
the wake pulse: it returns something other than `DHT_BUS_HUNG`, having driven the line
low in output mode and switched back to input. -/
theorem C6_idle_wait_bound (line : Line) (t h : ℚ) :
    ((∃ o, dht22_read line t h = some o ∧ o.result = DHT_BUS_HUNG) ↔
      ∀ k, k < 126 → line k = false) ∧
    ∀ j, j < 126 → (∀ k, k < j → line k = false) → line j = true →
      waitWhile line false 125 loopFuel 0 0 = some (Wait.done (j + 1) (j + 1)) ∧
      ∃ o, dht22_read line t h = some o ∧ o.result ≠ DHT_BUS_HUNG ∧ j + 1 ≤ o.polls ∧
        o.pinOps = [PinOp.THERM_INPUT_MODE, PinOp.THERM_LOW, PinOp.THERM_OUTPUT_MODE,
          PinOp.THERM_INPUT_MODE] := by
  have key : ∀ j, j < 126 → (∀ k, k < j → line k = false) → line j = true →
      waitWhile line false 125 loopFuel 0 0 = some (Wait.done (j + 1) (j + 1)) ∧
      ∃ o, dht22_read line t h = some o ∧ o.result ≠ DHT_BUS_HUNG ∧ j + 1 ≤ o.polls ∧
        o.pinOps = [PinOp.THERM_INPUT_MODE, PinOp.THERM_LOW, PinOp.THERM_OUTPUT_MODE,
          PinOp.THERM_INPUT_MODE] := by
    intro j hj hlow hhigh
    have hw := waitWhile_done line false 125 (by omega) 0 j (by omega)
      (by simpa using hlow) (by simpa using hhigh)
    simp only [Nat.zero_add] at hw
    refine ⟨hw, ?_⟩
    obtain ⟨o, ho, hb, _⟩ := dht22_read_of_idle line t h _ _ hw
    refine ⟨o, ho, hb, ?_⟩
    rcases handshake_cases line with ⟨hall, _⟩ | ⟨j2, _, _, _, hw2, r, hr, hinv⟩
    · rw [hall j hj] at hhigh; exact absurd hhigh (by simp)
    · have hjj : j2 = j := by
        have := hw.symm.trans hw2
        simp at this
        omega
      subst hjj
      cases r with
      | running s =>
        obtain ⟨o2, ho2, hp, hq, _⟩ := dht22_read_of_handshake_running line t h s hr
        have : o2 = o := Option.some.inj (ho2.symm.trans ho)
        subst this
        exact ⟨by have := hinv.2.2; omega, by rw [hp, hinv.2.1]⟩
      | aborted e s =>
        have ho2 := dht22_read_of_handshake_aborted line t h e s hr
        have : o = _ := Option.some.inj (ho.symm.trans ho2)
        subst this
        exact ⟨hinv.2.2.2, hinv.2.2.1⟩
  refine ⟨?_, key⟩
  constructor
  · rintro ⟨o, ho, hres⟩
    rcases first_other_level line false 0 126 with hall | ⟨j, hj, h1, h2⟩
    · simpa using hall
    · obtain ⟨_, o2, ho2, hne, _⟩ := key j hj (by simpa using h1) (by simpa using h2)
      have : o2 = o := Option.some.inj (ho2.symm.trans ho)
      subst this
      exact absurd hres hne
  · intro hall
    rcases handshake_cases line with ⟨_, hh⟩ | ⟨j, hj, _, hhigh, _⟩
    · exact ⟨_, dht22_read_of_handshake_aborted line t h _ _ hh, rfl⟩
    · rw [hall j (by omega)] at hhigh; exact absurd hhigh (by simp)

/-- Witness for C6: a line stuck low gives bus hung; on a clean transmission the idle
wait ends at the first poll and the wake pulse is sent. -/
theorem C6_idle_wait_bound_witness :
    (∃ o, dht22_read (lineOf []) 0 0 = some o ∧ o.result = DHT_BUS_HUNG) ∧
    (waitWhile (lineOf (frame 0x01F4 0x00C8 0xBD)) false 125 loopFuel 0 0
        = some (Wait.done 1 1) ∧
      ∃ o, dht22_read (lineOf (frame 0x01F4 0x00C8 0xBD)) 0 0 = some o ∧
        o.result ≠ DHT_BUS_HUNG ∧ 1 ≤ o.polls ∧
        o.pinOps = [PinOp.THERM_INPUT_MODE, PinOp.THERM_LOW, PinOp.THERM_OUTPUT_MODE,
          PinOp.THERM_INPUT_MODE]) :=
  ⟨(C6_idle_wait_bound (lineOf []) 0 0).1.mpr (by intro k _; rfl),
   (C6_idle_wait_bound (lineOf (frame 0x01F4 0x00C8 0xBD)) 0 0).2 0 (by decide)
     (by intro k hk; exact absurd hk (by omega)) (by decide)⟩

/-- C7 (ack-start bound).  When the idle wait has ended at poll position `p`,
`dht22_read` returns `DHT_ERROR_NOT_PRESENT` if and only if each of the 26 polls that
follow the wake pulse reads low.  If the line first reads high on the `(j + 1)`-th of
them, `j + 1 <= 26`, that wait ends after `j + 1` polls and the call does not return
`DHT_ERROR_NOT_PRESENT`. -/
theorem C7_ack_start_bound (line : Line) (t h : ℚ) (r p : Nat)
    (hidle : waitWhile line false 125 loopFuel 0 0 = some (Wait.done r p)) :
    ((∃ o, dht22_read line t h = some o ∧ o.result = DHT_ERROR_NOT_PRESENT) ↔
      ∀ k, k < 26 → line (p + k) = false) ∧
    ∀ j, j < 26 → (∀ k, k < j → line (p + k) = false) → line (p + j) = true →
      waitWhile line false 25 loopFuel 0 p = some (Wait.done (j + 1) (p + j + 1)) ∧
      ∃ o, dht22_read line t h = some o ∧ o.result ≠ DHT_ERROR_NOT_PRESENT := by
  obtain ⟨o, ho, _, hiff⟩ := dht22_read_of_idle line t h r p hidle
  constructor
  · constructor
    · rintro ⟨o2, ho2, hres⟩
      have : o2 = o := Option.some.inj (ho2.symm.trans ho)
      subst this
      exact hiff.mp hres
    · intro hall
      exact ⟨o, ho, hiff.mpr hall⟩
  · intro j hj hlow hhigh
    have hw := waitWhile_done line false 25 (by omega) p j (by omega) hlow (by simpa using hhigh)
    refine ⟨hw, o, ho, ?_⟩
    intro hres
    have := hiff.mp hres j hj
    rw [this] at hhigh
    exact absurd hhigh (by simp)

/-- Witness for C7: on a clean transmission the acknowledgement starts at the first
poll after the wake pulse. -/
theorem C7_ack_start_bound_witness :
    (∃ o, dht22_read (lineOf [true]) 0 0 = some o ∧ o.result = DHT_ERROR_NOT_PRESENT) ∧
    waitWhile (lineOf (frame 0x01F4 0x00C8 0xBD)) false 25 loopFuel 0 1
        = some (Wait.done 1 2) ∧
      ∃ o, dht22_read (lineOf (frame 0x01F4 0x00C8 0xBD)) 0 0 = some o ∧
        o.result ≠ DHT_ERROR_NOT_PRESENT :=
  ⟨(C7_ack_start_bound (lineOf [true]) 0 0 1 1 (by decide)).1.mpr (by decide),
   (C7_ack_start_bound (lineOf (frame 0x01F4 0x00C8 0xBD)) 0 0 1 1 (by decide)).2 0 (by decide)
     (by intro k hk; exact absurd hk (by omega)) (by decide)⟩

/-- C8 (ack-end bound).  When the idle wait and the wait for the start of the
acknowledgement have ended, the latter at poll position `q`, `dht22_read` returns
`DHT_ERROR_ACK_TOO_LONG` if and only if each of the next 51 polls reads high.  If the
line first reads low on the `(j + 1)`-th of them, `j + 1 <= 51`, that wait ends after
`j + 1` polls, the handshake is complete and the call does not return
`DHT_ERROR_ACK_TOO_LONG`. -/
theorem C8_ack_end_bound (line : Line) (t h : ℚ) (r p r2 q : Nat)
    (hidle : waitWhile line false 125 loopFuel 0 0 = some (Wait.done r p))
    (hack : waitWhile line false 25 loopFuel 0 p = some (Wait.done r2 q)) :
    ((∃ o, dht22_read line t h = some o ∧ o.result = DHT_ERROR_ACK_TOO_LONG) ↔
      ∀ k, k < 51 → line (q + k) = true) ∧
    ∀ j, j < 51 → (∀ k, k < j → line (q + k) = true) → line (q + j) = false →
      waitWhile line true 50 loopFuel 0 q = some (Wait.done (j + 1) (q + j + 1)) ∧
      handshake line = some (Progress.running
        ⟨List.replicate DHT22_DATA_BIT_COUNT 0, q + j + 1,
          [PinOp.THERM_INPUT_MODE, PinOp.THERM_LOW, PinOp.THERM_OUTPUT_MODE,
            PinOp.THERM_INPUT_MODE]⟩) ∧
      ∃ o, dht22_read line t h = some o ∧ o.result ≠ DHT_ERROR_ACK_TOO_LONG := by
  obtain ⟨o, ho, _, _, hiff⟩ := dht22_read_of_ack_start line t h r p r2 q hidle hack
  constructor
  · constructor
    · rintro ⟨o2, ho2, hres⟩
      have : o2 = o := Option.some.inj (ho2.symm.trans ho)
      subst this
      exact hiff.mp hres
    · intro hall
      exact ⟨o, ho, hiff.mpr hall⟩
  · intro j hj hlow hhigh
    have hw := waitWhile_done line true 50 (by omega) q j (by omega) hlow (by simpa using hhigh)
    refine ⟨hw, (handshake_of_ack_start line r p r2 q hidle hack).2 _ _ hw, o, ho, ?_⟩
    intro hres
    have := hiff.mp hres j hj
    rw [this] at hhigh
    exact absurd hhigh (by simp)

/-- Witness for C8: on a clean transmission the acknowledgement ends at the first poll
after its start. -/
theorem C8_ack_end_bound_witness :
    (∃ o, dht22_read (lineOf (List.replicate 53 true)) 0 0 = some o ∧
      o.result = DHT_ERROR_ACK_TOO_LONG) ∧
    waitWhile (lineOf (frame 0x01F4 0x00C8 0xBD)) true 50 loopFuel 0 2
        = some (Wait.done 1 3) ∧
      handshake (lineOf (frame 0x01F4 0x00C8 0xBD)) = some (Progress.running
        ⟨List.replicate DHT22_DATA_BIT_COUNT 0, 3,
          [PinOp.THERM_INPUT_MODE, PinOp.THERM_LOW, PinOp.THERM_OUTPUT_MODE,
            PinOp.THERM_INPUT_MODE]⟩) ∧
      ∃ o, dht22_read (lineOf (frame 0x01F4 0x00C8 0xBD)) 0 0 = some o ∧
        o.result ≠ DHT_ERROR_ACK_TOO_LONG :=
  ⟨(C8_ack_end_bound (lineOf (List.replicate 53 true)) 0 0 1 1 1 2 (by decide)
      (by decide)).1.mpr (by decide),
   (C8_ack_end_bound (lineOf (frame 0x01F4 0x00C8 0xBD)) 0 0 1 1 1 2 (by decide)
      (by decide)).2 0 (by decide) (by intro k hk; exact absurd hk (by omega)) (by decide)⟩

/-! ## The sampling timeouts (C9, C10) -/

/-- C9 (sync timeout at any bit).  Let the handshake complete and the samples of bits
`0 .. i-1` be taken, `i <= 40`, leaving state `st`.  If each of the next 36 polls reads
low, `dht22_read` returns `DHT_ERROR_SYNC_TIMEOUT` right after those 36 polls: no more
polls are made, `bitTimes` is as it was (entries `i ..` still 0), and the outputs keep
the values they had before the call.  If one of those 36 polls reads high, the sync wait
of bit `i` ends without a timeout, so iteration `i` does not return the sync timeout. -/
theorem C9_sync_timeout (line : Line) (t h : ℚ) (i : Nat) (hi : i ≤ 40) (st0 st : Acq)
    (hhs : handshake line = some (Progress.running st0))
    (hbits : sampleBits line i st0 = some (Progress.running st)) :
    ((∀ k, k < 36 → line (st.polls + k) = false) →
      dht22_read line t h =
        some ⟨DHT_ERROR_SYNC_TIMEOUT, t, h, st.bitTimes, st.polls + 36, st.pinOps⟩ ∧
      ∀ j, i ≤ j → st.bitTimes.getD j 0 = 0) ∧
    ((∃ k, k < 36 ∧ line (st.polls + k) = true) →
      (∃ r p, waitWhile line false 35 loopFuel 0 st.polls = some (Wait.done r p)) ∧
      ∀ s, sampleBits line (i + 1) st0 ≠ some (Progress.aborted DHT_ERROR_SYNC_TIMEOUT s)) := by
  constructor
  · intro hlow
    have hw := waitWhile_timeout line false 35 (by omega) st.polls hlow
    have hb : sampleBit line i st =
        some (Progress.aborted DHT_ERROR_SYNC_TIMEOUT { st with polls := st.polls + 36 }) := by
      simp [sampleBit, hw]
    have h1 : sampleBits line (i + 1) st0 =
        some (Progress.aborted DHT_ERROR_SYNC_TIMEOUT { st with polls := st.polls + 36 }) := by
      rw [sampleBits_succ_of_running line i st0 st hbits, hb]
    have h2 := sampleBits_aborted_mono line (i + 1) st0 _ _ h1 DHT22_DATA_BIT_COUNT
      (by unfold DHT22_DATA_BIT_COUNT; omega)
    rw [← acquire_of_handshake_running line st0 hhs] at h2
    refine ⟨dht22_read_of_acquire_aborted line t h _ _ h2, ?_⟩
    intro j hj
    obtain ⟨r, hr, hinv⟩ := sampleBits_inv line st0 i
    rw [hbits] at hr
    simp only [Option.some.injEq] at hr
    subst hr
    rw [hinv.2.2.2 j hj, handshake_running_bitTimes line st0 hhs]
    simp only [List.getD_eq_getElem?_getD, List.getElem?_replicate]
    split <;> rfl
  · rintro ⟨k, hk, hhigh⟩
    rcases sampleBit_cases line i st with ⟨hall, _⟩ | ⟨j, _, _, _, hw, hrest⟩
    · rw [hall k hk] at hhigh; exact absurd hhigh (by simp)
    · refine ⟨⟨_, _, hw⟩, ?_⟩
      intro s
      rw [sampleBits_succ_of_running line i st0 st hbits]
      rcases hrest with ⟨_, hs⟩ | ⟨m, _, _, _, hs⟩ <;> rw [hs] <;> simp

/-- C10 (data timeout at any bit).  Let the handshake complete, the samples of bits
`0 .. i-1` be taken, `i <= 40`, leaving state `st`, and the sync wait of bit `i` end at
poll position `q`.  If each of the next 51 polls reads high, `dht22_read` returns
`DHT_ERROR_DATA_TIMEOUT` right after those 51 polls, the outputs untouched.  If the line
first reads low on the `k`-th of them, `1 <= k <= 51`, iteration `i` ends without a
timeout after those `k` polls, it stores `k` in `bitTimes[i]`, and `bitTimes[i]` is
still `k` when the call returns. -/
theorem C10_data_timeout (line : Line) (t h : ℚ) (i : Nat) (hi : i ≤ 40) (st0 st : Acq)
    (r q : Nat)
    (hhs : handshake line = some (Progress.running st0))
    (hbits : sampleBits line i st0 = some (Progress.running st))
    (hsync : waitWhile line false 35 loopFuel 0 st.polls = some (Wait.done r q)) :
    ((∀ k, k < 51 → line (q + k) = true) →
      dht22_read line t h =
        some ⟨DHT_ERROR_DATA_TIMEOUT, t, h, st.bitTimes, q + 51, st.pinOps⟩) ∧
    ∀ k, 1 ≤ k → k ≤ 51 → (∀ j, j < k - 1 → line (q + j) = true) →
      line (q + (k - 1)) = false →
      (∃ s, sampleBits line (i + 1) st0 = some (Progress.running s) ∧
        s.bitTimes.getD i 0 = k ∧ s.polls = q + k) ∧
      ∃ o, dht22_read line t h = some o ∧ o.bitTimes.getD i 0 = k := by
  have hlen : st.bitTimes.length = 41 := by
    obtain ⟨r, hr, hinv⟩ := sampleBits_inv line st0 i
    rw [hbits] at hr
    simp only [Option.some.injEq] at hr
    subst hr
    rw [hinv.2.1, handshake_running_bitTimes line st0 hhs]
    simp [DHT22_DATA_BIT_COUNT]
  constructor
  · intro hhigh
    have hw := waitWhile_timeout line true 50 (by omega) q hhigh
    have hb : sampleBit line i st =
        some (Progress.aborted DHT_ERROR_DATA_TIMEOUT { st with polls := q + 51 }) := by
      simp [sampleBit, hsync, hw]
    have h1 : sampleBits line (i + 1) st0 =
        some (Progress.aborted DHT_ERROR_DATA_TIMEOUT { st with polls := q + 51 }) := by
      rw [sampleBits_succ_of_running line i st0 st hbits, hb]
    have h2 := sampleBits_aborted_mono line (i + 1) st0 _ _ h1 DHT22_DATA_BIT_COUNT
      (by unfold DHT22_DATA_BIT_COUNT; omega)
    rw [← acquire_of_handshake_running line st0 hhs] at h2
    exact dht22_read_of_acquire_aborted line t h _ _ h2
  · intro k hk1 hk2 hhigh hlow
    have hw := waitWhile_done line true 50 (by omega) q (k - 1) (by omega) hhigh
      (by simpa using hlow)
    have hk3 : k - 1 + 1 = k := by omega
    have hk4 : q + (k - 1) + 1 = q + k := by omega
    rw [hk3, hk4] at hw
    have hb : sampleBit line i st =
        some (Progress.running { st with bitTimes := st.bitTimes.set i k, polls := q + k }) := by
      simp [sampleBit, hsync, hw]
    have h1 : sampleBits line (i + 1) st0 =
        some (Progress.running { st with bitTimes := st.bitTimes.set i k, polls := q + k }) := by
      rw [sampleBits_succ_of_running line i st0 st hbits, hb]
    have hget : (st.bitTimes.set i k).getD i 0 = k := by
      rw [List.getD_eq_getElem?_getD, List.getElem?_set_self (by omega)]
      rfl
    refine ⟨⟨_, h1, hget, rfl⟩, ?_⟩
    obtain ⟨r2, hr2, hkeep⟩ := sampleBits_later line st0 _ (i + 1) h1 DHT22_DATA_BIT_COUNT
      (by unfold DHT22_DATA_BIT_COUNT; omega)
    rw [← acquire_of_handshake_running line st0 hhs] at hr2
    cases r2 with
    | running s2 =>
      refine ⟨_, dht22_read_of_acquire_running line t h s2 hr2, ?_⟩
      have := hkeep i (by omega)
      rw [hget] at this
      exact this
    | aborted e s2 =>
      refine ⟨_, dht22_read_of_acquire_aborted line t h e s2 hr2, ?_⟩
      have := hkeep i (by omega)
      rw [hget] at this
      exact this


/-- Witness for C9: after two sampled bits the line stays low and the call returns the
sync timeout 36 polls later; on a clean transmission the sync wait of bit 0 ends. -/
theorem C9_sync_timeout_witness :
    (dht22_read (lineOf ([true, true, false] ++ pulse 3 ++ pulse 3)) 0 0 =
        some ⟨DHT_ERROR_SYNC_TIMEOUT, 0, 0, ((List.replicate 41 0).set 0 3).set 1 3, 11 + 36,
          [PinOp.THERM_INPUT_MODE, PinOp.THERM_LOW, PinOp.THERM_OUTPUT_MODE,
            PinOp.THERM_INPUT_MODE]⟩ ∧
      ∀ j, 2 ≤ j → (((List.replicate 41 0).set 0 3).set 1 3).getD j 0 = 0) ∧
    ((∃ r p, waitWhile (lineOf (frame 0x01F4 0x00C8 0xBD)) false 35 loopFuel 0 3 =
        some (Wait.done r p)) ∧
      ∀ s, sampleBits (lineOf (frame 0x01F4 0x00C8 0xBD)) (0 + 1)
          ⟨List.replicate DHT22_DATA_BIT_COUNT 0, 3,
            [PinOp.THERM_INPUT_MODE, PinOp.THERM_LOW, PinOp.THERM_OUTPUT_MODE,
              PinOp.THERM_INPUT_MODE]⟩ ≠
        some (Progress.aborted DHT_ERROR_SYNC_TIMEOUT s)) :=
  ⟨(C9_sync_timeout (lineOf ([true, true, false] ++ pulse 3 ++ pulse 3)) 0 0 2 (by decide)
      ⟨List.replicate DHT22_DATA_BIT_COUNT 0, 3,
        [PinOp.THERM_INPUT_MODE, PinOp.THERM_LOW, PinOp.THERM_OUTPUT_MODE,
          PinOp.THERM_INPUT_MODE]⟩
      ⟨((List.replicate 41 0).set 0 3).set 1 3, 11,
        [PinOp.THERM_INPUT_MODE, PinOp.THERM_LOW, PinOp.THERM_OUTPUT_MODE,
          PinOp.THERM_INPUT_MODE]⟩ (by decide) (by decide)).1 (by decide),
   (C9_sync_timeout (lineOf (frame 0x01F4 0x00C8 0xBD)) 0 0 0 (by decide)
      ⟨List.replicate DHT22_DATA_BIT_COUNT 0, 3,
        [PinOp.THERM_INPUT_MODE, PinOp.THERM_LOW, PinOp.THERM_OUTPUT_MODE,
          PinOp.THERM_INPUT_MODE]⟩
      ⟨List.replicate DHT22_DATA_BIT_COUNT 0, 3,
        [PinOp.THERM_INPUT_MODE, PinOp.THERM_LOW, PinOp.THERM_OUTPUT_MODE,
          PinOp.THERM_INPUT_MODE]⟩ (by decide) (by decide)).2 ⟨0, by decide, by decide⟩⟩

/-- Witness for C10: a line that stays high after the first sync pulse gives the data
timeout 51 polls later; on a clean transmission whose leading bit goes low on the third
poll, 3 is stored at index 0. -/
theorem C10_data_timeout_witness :
    dht22_read (lineOf ([true, true, false] ++ List.replicate 52 true)) 0 0 =
        some ⟨DHT_ERROR_DATA_TIMEOUT, 0, 0, List.replicate DHT22_DATA_BIT_COUNT 0, 4 + 51,
          [PinOp.THERM_INPUT_MODE, PinOp.THERM_LOW, PinOp.THERM_OUTPUT_MODE,
            PinOp.THERM_INPUT_MODE]⟩ ∧
    ((∃ s, sampleBits (lineOf (frame 0x01F4 0x00C8 0xBD)) (0 + 1)
          ⟨List.replicate DHT22_DATA_BIT_COUNT 0, 3,
            [PinOp.THERM_INPUT_MODE, PinOp.THERM_LOW, PinOp.THERM_OUTPUT_MODE,
              PinOp.THERM_INPUT_MODE]⟩ = some (Progress.running s) ∧
        s.bitTimes.getD 0 0 = 3 ∧ s.polls = 4 + 3) ∧
      ∃ o, dht22_read (lineOf (frame 0x01F4 0x00C8 0xBD)) 0 0 = some o ∧
        o.bitTimes.getD 0 0 = 3) :=
  ⟨(C10_data_timeout (lineOf ([true, true, false] ++ List.replicate 52 true)) 0 0 0 (by decide)
      ⟨List.replicate DHT22_DATA_BIT_COUNT 0, 3,
        [PinOp.THERM_INPUT_MODE, PinOp.THERM_LOW, PinOp.THERM_OUTPUT_MODE,
          PinOp.THERM_INPUT_MODE]⟩
      ⟨List.replicate DHT22_DATA_BIT_COUNT 0, 3,
        [PinOp.THERM_INPUT_MODE, PinOp.THERM_LOW, PinOp.THERM_OUTPUT_MODE,
          PinOp.THERM_INPUT_MODE]⟩ 1 4 (by decide) (by decide) (by decide)).1 (by decide),
   (C10_data_timeout (lineOf (frame 0x01F4 0x00C8 0xBD)) 0 0 0 (by decide)
      ⟨List.replicate DHT22_DATA_BIT_COUNT 0, 3,
        [PinOp.THERM_INPUT_MODE, PinOp.THERM_LOW, PinOp.THERM_OUTPUT_MODE,
          PinOp.THERM_INPUT_MODE]⟩
      ⟨List.replicate DHT22_DATA_BIT_COUNT 0, 3,
        [PinOp.THERM_INPUT_MODE, PinOp.THERM_LOW, PinOp.THERM_OUTPUT_MODE,
          PinOp.THERM_INPUT_MODE]⟩ 1 4 (by decide) (by decide) (by decide)).2 3 (by decide)
      (by decide) (by decide) (by decide)⟩

/-! ## Dependence of the decoding on the samples (C11) -/

theorem gatherBits_congr (bt1 bt2 : List Nat) (off top : Nat) :
    ∀ n, (∀ i, i < n → bt1.getD (i + off) 0 = bt2.getD (i + off) 0) →
      gatherBits bt1 n off top = gatherBits bt2 n off top := by
  intro n
  induction n with
  | zero => intro _; rfl
  | succ n ih =>
    intro h
    rw [gatherBits_succ, gatherBits_succ, ih (fun i hi => h i (by omega)), h n (by omega)]

/-- The decoding reads the samples at indices 1..40 only. -/
theorem decode_congr (st1 st2 : Acq)
    (h : ∀ k, 1 ≤ k → k ≤ 40 → st1.bitTimes.getD k 0 = st2.bitTimes.getD k 0) :
    (decode st1).result = (decode st2).result ∧
      (decode st1).humidity = (decode st2).humidity ∧
      (decode st1).temperature = (decode st2).temperature := by
  have hH : currentHumidity st1.bitTimes = currentHumidity st2.bitTimes :=
    gatherBits_congr _ _ 1 15 16 (fun i hi => h (i + 1) (by omega) (by omega))
  have hT : currentTemperature st1.bitTimes = currentTemperature st2.bitTimes :=
    gatherBits_congr _ _ 17 15 16 (fun i hi => h (i + 17) (by omega) (by omega))
  have hC : checkSum st1.bitTimes = checkSum st2.bitTimes :=
    gatherBits_congr _ _ 33 7 8 (fun i hi => h (i + 33) (by omega) (by omega))
  simp only [decode, hH, hT, hC]
  exact ⟨trivial, trivial, trivial⟩

theorem contributedBit_iff (bt : List Nat) (k : Nat) (h1 : 1 ≤ k) (h2 : k ≤ 40) :
    contributedBit bt k = decide (bt.getD k 0 > MAX_LOW_BIT_TIME) := by
  unfold contributedBit
  split
  · rename_i hk
    rw [currentHumidity, testBit_gatherBits bt 1 15 16 (by omega)]
    have e1 : 15 - (15 - (k - 1)) + 1 = k := by omega
    have e2 : 15 - (k - 1) ≤ 15 := by omega
    have e3 : 15 - (15 - (k - 1)) < 16 := by omega
    rw [e1]
    simp [e2, e3]
  · split
    · rename_i hk1 hk
      rw [currentTemperature, testBit_gatherBits bt 17 15 16 (by omega)]
      have e1 : 15 - (15 - (k - 17)) + 17 = k := by omega
      have e2 : 15 - (k - 17) ≤ 15 := by omega
      have e3 : 15 - (15 - (k - 17)) < 16 := by omega
      rw [e1]
      simp [e2, e3]
    · rename_i hk1 hk
      rw [checkSum, testBit_gatherBits bt 33 7 8 (by omega)]
      have e1 : 7 - (7 - (k - 33)) + 33 = k := by omega
      have e2 : 7 - (k - 33) ≤ 7 := by omega
      have e3 : 7 - (7 - (k - 33)) < 8 := by omega
      rw [e1]
      simp [e2, e3]

/-- C11 (classification boundary).  With `MAX_LOW_BIT_TIME` the unparenthesised `10/2`,
which is 5 where it is used, the bit that the sample at an index `k` in 1..40 contributes
to its field (humidity bit `15 - (k - 1)`, temperature bit `15 - (k - 17)`, checksum bit
`7 - (k - 33)`) is 1 if and only if the sample is strictly greater than 5; a sample of
exactly 5 gives 0 and a sample of exactly 6 gives 1. -/
theorem C11_classification_boundary (bitTimes : List Nat) (k : Nat) (h1 : 1 ≤ k)
    (h2 : k ≤ 40) :
    MAX_LOW_BIT_TIME = 5 ∧
    (contributedBit bitTimes k = true ↔ bitTimes.getD k 0 > 5) ∧
    (bitTimes.getD k 0 = 5 → contributedBit bitTimes k = false) ∧
    (bitTimes.getD k 0 = 6 → contributedBit bitTimes k = true) := by
  have h := contributedBit_iff bitTimes k h1 h2
  have hm : MAX_LOW_BIT_TIME = 5 := rfl
  rw [hm] at h
  refine ⟨hm, ?_, ?_, ?_⟩
  · rw [h]; simp
  · intro h5; rw [h, h5]; rfl
  · intro h6; rw [h, h6]; rfl

/-- Witness for C11: in the array `[0, 5, 6]` the sample 5 at index 1 gives humidity
bit 15 clear and the sample 6 at index 2 gives humidity bit 14 set. -/
theorem C11_classification_boundary_witness :
    (currentHumidity [0, 5, 6]).testBit 15 = false ∧
    (currentHumidity [0, 5, 6]).testBit 14 = true :=
  ⟨(C11_classification_boundary [0, 5, 6] 1 (by decide) (by decide)).2.2.1 rfl,
   (C11_classification_boundary [0, 5, 6] 2 (by decide) (by decide)).2.2.2 rfl⟩

/-! ## The leading sample and the humidity range (C12-C14) -/

theorem acquire_frame_e :
    acquire (lineOf (frame 0xFFFF 0x00C8 0xC6)) =
      some (Progress.running (frameAcq 0xFFFF 0x00C8 0xC6)) := by decide

theorem acquire_frame_lead :
    acquire (lineOf (frameLead 9 0x01F4 0x00C8 0xBD)) =
      some (Progress.running
        ⟨9 :: (frameAcq 0x01F4 0x00C8 0xBD).bitTimes.tail,
          (frameLead 9 0x01F4 0x00C8 0xBD).length,
          [PinOp.THERM_INPUT_MODE, PinOp.THERM_LOW, PinOp.THERM_OUTPUT_MODE,
            PinOp.THERM_INPUT_MODE]⟩) := by decide

/-- C12 (the leading sample is discarded).  If two lines both let all 41 samples be
acquired and the recorded samples agree at every index 1..40, the two calls return the
same code and deliver the same humidity and temperature, whatever was recorded at
index 0 and whatever the outputs held before. -/
theorem C12_leading_sample_discarded (line1 line2 : Line) (t1 h1 t2 h2 : ℚ) (st1 st2 : Acq)
    (ha1 : acquire line1 = some (Progress.running st1))
    (ha2 : acquire line2 = some (Progress.running st2))
    (hs : ∀ k, 1 ≤ k → k ≤ 40 → st1.bitTimes.getD k 0 = st2.bitTimes.getD k 0) :
    ∃ o1 o2, dht22_read line1 t1 h1 = some o1 ∧ dht22_read line2 t2 h2 = some o2 ∧
      o1.result = o2.result ∧ o1.humidity = o2.humidity ∧
      o1.temperature = o2.temperature :=
  ⟨decode st1, decode st2, dht22_read_of_acquire_running line1 t1 h1 st1 ha1,
    dht22_read_of_acquire_running line2 t2 h2 st2 ha2, decode_congr st1 st2 hs⟩

/-- Witness for C12: the same transmission with the leading bit sampled as 3 polls and
as 9 polls. -/
theorem C12_leading_sample_discarded_witness :
    (frameAcq 0x01F4 0x00C8 0xBD).bitTimes.getD 0 0 = 3 ∧
    ∃ o1 o2, dht22_read (lineOf (frame 0x01F4 0x00C8 0xBD)) 0 0 = some o1 ∧
      dht22_read (lineOf (frameLead 9 0x01F4 0x00C8 0xBD)) 1 2 = some o2 ∧
      o2.bitTimes.getD 0 0 = 9 ∧
      o1.result = o2.result ∧ o1.humidity = o2.humidity ∧
      o1.temperature = o2.temperature := by
  refine ⟨by decide, ?_⟩
  obtain ⟨o1, o2, e1, e2, e3⟩ :=
    C12_leading_sample_discarded (lineOf (frame 0x01F4 0x00C8 0xBD))
      (lineOf (frameLead 9 0x01F4 0x00C8 0xBD)) 0 0 1 2 _ _ acquire_frame_a acquire_frame_lead
      (by decide)
  refine ⟨o1, o2, e1, e2, ?_, e3⟩
  have := Option.some.inj
    (e2.symm.trans (dht22_read_of_acquire_running _ 1 2 _ acquire_frame_lead))
  rw [this]
  rfl

/-- C13 (humidity is never negative).  Whenever all 41 samples are acquired, the
humidity that `dht22_read` stores is `(H & 0x7FFF) / 10`, with `H` the word assembled
from samples 1..16, and is greater than or equal to 0, also when sample 1 is a one. -/
theorem C13_humidity_nonneg (line : Line) (t h : ℚ) (st : Acq)
    (ha : acquire line = some (Progress.running st)) :
    ∃ o, dht22_read line t h = some o ∧
      o.humidity = ((specField st.bitTimes 1 16 &&& 0x7FFF : ℕ) : ℚ) / 10 ∧
      0 ≤ o.humidity := by
  refine ⟨decode st, dht22_read_of_acquire_running line t h st ha, decode_humidity st, ?_⟩
  rw [decode_humidity]
  positivity

/-- Witness for C13: a transmission whose humidity word is 0xFFFF, so that sample 1 is
a one. -/
theorem C13_humidity_nonneg_witness :
    classify ((frameAcq 0xFFFF 0x00C8 0xC6).bitTimes.getD 1 0) = true ∧
    ∃ o, dht22_read (lineOf (frame 0xFFFF 0x00C8 0xC6)) 0 0 = some o ∧
      o.humidity =
        ((specField (frameAcq 0xFFFF 0x00C8 0xC6).bitTimes 1 16 &&& 0x7FFF : ℕ) : ℚ) / 10 ∧
      0 ≤ o.humidity :=
  ⟨by decide, C13_humidity_nonneg (lineOf (frame 0xFFFF 0x00C8 0xC6)) 0 0 _ acquire_frame_e⟩

/-- C14 as stated fails: the clean transmission of humidity word 0xFFFF, temperature
word 0x00C8 and their checksum 0xC6 is accepted, and the humidity delivered is 3276.7,
above 100. -/
theorem C14_humidity_range_counterexample :
    ∃ o, dht22_read (lineOf (frame 0xFFFF 0x00C8 0xC6)) 0 0 = some o ∧
      o.result = DHT_ERROR_NONE ∧ o.humidity = 32767 / 10 ∧ ¬ (o.humidity ≤ 100) := by
  have hh : (decode (frameAcq 0xFFFF 0x00C8 0xC6)).humidity = 32767 / 10 := by
    rw [decode_humidity,
      show specField (frameAcq 0xFFFF 0x00C8 0xC6).bitTimes 1 16 = 65535 by decide,
      show (65535 &&& 0x7FFF : ℕ) = 32767 by decide]
    norm_num
  refine ⟨decode (frameAcq 0xFFFF 0x00C8 0xC6),
    dht22_read_of_acquire_running _ 0 0 _ acquire_frame_e, by decide, hh, ?_⟩
  rw [hh]
  norm_num

/-- C14 as amended.  Whenever `dht22_read` returns `DHT_ERROR_NONE`, the humidity
delivered lies between 0 and 3276.7 inclusive: it is `(H & 0x7FFF) / 10` for a 16-bit
word `H`, and the code makes no comparison with 100. -/
theorem C14_humidity_range_amended (line : Line) (t h : ℚ) (o : Outcome)
    (hres : dht22_read line t h = some o) (hok : o.result = DHT_ERROR_NONE) :
    0 ≤ o.humidity ∧ o.humidity ≤ 32767 / 10 := by
  rcases dht22_read_cases line t h with ⟨e, st, _, he, hr⟩ | ⟨st, _, hr⟩
  · have : o = _ := Option.some.inj (hres.symm.trans hr)
    subst this
    simp only at hok
    subst hok
    simp at he
  · have : o = _ := Option.some.inj (hres.symm.trans hr)
    subst this
    rw [decode_humidity]
    have hle : specField st.bitTimes 1 16 &&& 0x7FFF ≤ 32767 := Nat.and_le_right
    have hq : ((specField st.bitTimes 1 16 &&& 0x7FFF : ℕ) : ℚ) ≤ 32767 := by
      exact_mod_cast hle
    constructor
    · positivity
    · linarith

/-- Witness for C14 as amended: the transmission of 0x01F4, 0x00C8 with checksum 0xBD
is accepted and its humidity lies within the bounds. -/
theorem C14_humidity_range_amended_witness :
    ∃ o, dht22_read (lineOf (frame 0x01F4 0x00C8 0xBD)) 0 0 = some o ∧
      0 ≤ o.humidity ∧ o.humidity ≤ 32767 / 10 :=
  ⟨decode (frameAcq 0x01F4 0x00C8 0xBD),
    dht22_read_of_acquire_running _ 0 0 _ acquire_frame_a,
    C14_humidity_range_amended (lineOf (frame 0x01F4 0x00C8 0xBD)) 0 0 _
      (dht22_read_of_acquire_running _ 0 0 _ acquire_frame_a) (by decide)⟩

/-! ## The number of polls (C16) -/

theorem sampleBits_polls_le (line : Line) (st : Acq) :
    ∀ n, ∃ r, sampleBits line n st = some r ∧
      match r with
      | Progress.running s => s.polls ≤ st.polls + 87 * n
      | Progress.aborted _ s => s.polls ≤ st.polls + 87 * n := by
  intro n
  induction n with
  | zero => exact ⟨Progress.running st, rfl, by simp⟩
  | succ n ih =>
    obtain ⟨r, hr, hle⟩ := ih
    cases r with
    | aborted e s =>
      refine ⟨_, sampleBits_succ_of_aborted line n st s e hr, ?_⟩
      simp only at hle ⊢
      omega
    | running s =>
      simp only at hle
      rw [sampleBits_succ_of_running line n st s hr]
      rcases sampleBit_cases line n s with
        ⟨_, hs⟩ | ⟨j, hj, _, _, _, ⟨_, hs⟩ | ⟨m, hm, _, _, hs⟩⟩
      · refine ⟨_, hs, ?_⟩
        simp only
        omega
      · refine ⟨_, hs, ?_⟩
        simp only
        omega
      · refine ⟨_, hs, ?_⟩
        simp only
        omega

theorem handshake_polls_le (line : Line) :
    ∃ r, handshake line = some r ∧
      match r with
      | Progress.running s => s.polls ≤ 203
      | Progress.aborted _ s => s.polls ≤ 203 := by
  rcases waitWhile_cases line false 125 (by omega) 0 with ⟨_, hw⟩ | ⟨j, hj, _, _, hw⟩
  · refine ⟨_, by simp only [handshake, hw]; rfl, ?_⟩
    simp only
    omega
  · rcases waitWhile_cases line false 25 (by omega) (0 + j + 1) with
      ⟨_, hw2⟩ | ⟨j2, hj2, _, _, hw2⟩
    · refine ⟨_, by simp only [handshake, hw, hw2]; rfl, ?_⟩
      simp only
      omega
    · rcases waitWhile_cases line true 50 (by omega) (0 + j + 1 + j2 + 1) with
        ⟨_, hw3⟩ | ⟨j3, hj3, _, _, hw3⟩
      · refine ⟨_, by simp only [handshake, hw, hw2, hw3]; rfl, ?_⟩
        simp only
        omega
      · refine ⟨_, by simp only [handshake, hw, hw2, hw3]; rfl, ?_⟩
        simp only
        omega

/-- C16 (bounded run).  On every line whatsoever `dht22_read` returns, with exactly one
outcome, after at most `126 + 26 + 51 + 41 * (36 + 51) = 3770` polls of the line. -/
theorem C16_bounded_run (line : Line) (t h : ℚ) :
    ∃ o, dht22_read line t h = some o ∧ (∀ o2, dht22_read line t h = some o2 → o2 = o) ∧
      o.polls ≤ 126 + 26 + 51 + 41 * (36 + 51) ∧ o.polls ≤ 3770 := by
  have key : ∃ o, dht22_read line t h = some o ∧ o.polls ≤ 3770 := by
    obtain ⟨r, hr, hle⟩ := handshake_polls_le line
    cases r with
    | aborted e s =>
      exact ⟨_, dht22_read_of_handshake_aborted line t h e s hr, by simp only at hle ⊢; omega⟩
    | running s =>
      simp only at hle
      obtain ⟨r2, hr2, hle2⟩ := sampleBits_polls_le line s DHT22_DATA_BIT_COUNT
      rw [← acquire_of_handshake_running line s hr] at hr2
      have h41 : DHT22_DATA_BIT_COUNT = 41 := rfl
      rw [h41] at hle2
      cases r2 with
      | aborted e s2 =>
        exact ⟨_, dht22_read_of_acquire_aborted line t h e s2 hr2,
          by simp only at hle2 ⊢; omega⟩
      | running s2 =>
        refine ⟨_, dht22_read_of_acquire_running line t h s2 hr2, ?_⟩
        rw [(decode_frame s2).2.1]
        simp only at hle2
        omega
  obtain ⟨o, ho, hle⟩ := key
  refine ⟨o, ho, ?_, ?_, hle⟩
  · intro o2 ho2
    exact Option.some.inj (ho2.symm.trans ho)
  · omega

/-! ## Entry of the call (C15) -/

theorem clearing_fold (n : Nat) :
    ∀ l : List Nat, n ≤ l.length →
      ((List.range n).foldl (fun bitTimes i => bitTimes.set i 0) l).length = l.length ∧
      ∀ j, ((List.range n).foldl (fun bitTimes i => bitTimes.set i 0) l)[j]? =
        if j < n then some 0 else l[j]? := by
  induction n with
  | zero => intro l _; simp
  | succ n ih =>
    intro l hl
    obtain ⟨h1, h2⟩ := ih l (by omega)
    rw [List.range_succ, List.foldl_append]
    simp only [List.foldl_cons, List.foldl_nil, List.length_set]
    refine ⟨h1, ?_⟩
    intro j
    by_cases hj : n = j
    · subst hj
      rw [List.getElem?_set_self (by omega)]
      simp
    · rw [List.getElem?_set_ne hj, h2 j]
      by_cases hjn : j < n
      · have : j < n + 1 := by omega
        simp [hjn, this]
      · have : ¬ j < n + 1 := by omega
        simp [hjn, this]

/-- The clearing loop of lines 42-45 leaves 41 zeros, whatever the array held. -/
theorem clearBitTimes_eq (stale : List Nat) (h : stale.length = DHT22_DATA_BIT_COUNT) :
    clearBitTimes stale = List.replicate DHT22_DATA_BIT_COUNT 0 := by
  obtain ⟨h1, h2⟩ := clearing_fold DHT22_DATA_BIT_COUNT stale (by omega)
  apply List.ext_getElem?
  intro j
  rw [clearBitTimes, h2 j, List.getElem?_replicate]
  split
  · rfl
  · rw [List.getElem?_eq_none (by omega)]

/-! ## The call with its locals explicit agrees with `dht22_read` -/

theorem pollLoop_toWait (line : Line) (level : Bool) (limit : Nat) :
    ∀ fuel m, (pollLoop line level limit fuel m).map PollEnd.toWait =
      waitWhile line level limit fuel m.locals.retryCount m.polls := by
  intro fuel
  induction fuel with
  | zero => intro m; rfl
  | succ fuel ih =>
    intro m
    rw [pollLoop, waitWhile]
    by_cases hr : m.locals.retryCount > limit
    · simp [hr, PollEnd.toWait]
    · simp only [hr, if_false]
      by_cases hl : line m.polls = level
      · simp only [hl, if_true]
        exact ih _
      · simp [hl, PollEnd.toWait]

/-- A polling loop changes `retryCount` and the poll count, nothing else that the call
reads later. -/
theorem pollLoop_frame (line : Line) (level : Bool) (limit : Nat) :
    ∀ fuel m e, pollLoop line level limit fuel m = some e →
      e.run.pinOps = m.pinOps ∧ e.run.locals.bitTimes = m.locals.bitTimes ∧
      e.run.locals.currentHumidity = m.locals.currentHumidity ∧
      e.run.locals.currentTemperature = m.locals.currentTemperature ∧
      e.run.locals.checkSum = m.locals.checkSum ∧ e.run.locals.i = m.locals.i := by
  intro fuel
  induction fuel with
  | zero => intro m e h; simp [pollLoop] at h
  | succ fuel ih =>
    intro m e h
    rw [pollLoop] at h
    by_cases hr : m.locals.retryCount > limit
    · simp only [hr, if_true, Option.some.injEq] at h
      subst h
      exact ⟨rfl, rfl, rfl, rfl, rfl, rfl⟩
    · simp only [hr, if_false] at h
      by_cases hl : line m.polls = level
      · simp only [hl, if_true] at h
        have := ih { m with
          locals := { m.locals with retryCount := (m.locals.retryCount + 1) % 256 },
          polls := m.polls + 1 } e h
        exact this
      · simp only [hl, if_false, Option.some.injEq] at h
        subst h
        exact ⟨rfl, rfl, rfl, rfl, rfl, rfl⟩

/-- A polling loop entered right after `retryCount = 0`, in terms of `waitWhile`. -/
theorem pollLoop_reset (line : Line) (level : Bool) (limit : Nat) (m : Run) :
    match pollLoop line level limit loopFuel (resetRetryCount m) with
    | none => waitWhile line level limit loopFuel 0 m.polls = none
    | some (PollEnd.left m1) =>
      waitWhile line level limit loopFuel 0 m.polls =
          some (Wait.done m1.locals.retryCount m1.polls) ∧
        m1.pinOps = m.pinOps ∧ m1.locals.bitTimes = m.locals.bitTimes ∧
      m1.locals.currentHumidity = m.locals.currentHumidity ∧
      m1.locals.currentTemperature = m.locals.currentTemperature ∧
      m1.locals.checkSum = m.locals.checkSum ∧ m1.locals.i = m.locals.i
    | some (PollEnd.returned m1) =>
      waitWhile line level limit loopFuel 0 m.polls = some (Wait.timeout m1.polls) ∧
        m1.pinOps = m.pinOps ∧ m1.locals.bitTimes = m.locals.bitTimes ∧
      m1.locals.currentHumidity = m.locals.currentHumidity ∧
      m1.locals.currentTemperature = m.locals.currentTemperature ∧
      m1.locals.checkSum = m.locals.checkSum ∧ m1.locals.i = m.locals.i := by
  have h1 := pollLoop_toWait line level limit loopFuel (resetRetryCount m)
  have h2 := pollLoop_frame line level limit loopFuel (resetRetryCount m)
  cases hp : pollLoop line level limit loopFuel (resetRetryCount m) with
  | none =>
    rw [hp] at h1
    exact h1.symm
  | some e =>
    rw [hp] at h1
    have h3 := h2 e hp
    cases e with
    | left m1 => exact ⟨h1.symm, h3⟩
    | returned m1 => exact ⟨h1.symm, h3⟩

theorem sampleBitFrom_sim (line : Line) (m : Run) :
    (sampleBitFrom line m).map RunProgress.toProgress = sampleBit line m.locals.i m.toAcq ∧
    ∀ r, sampleBitFrom line m = some r →
      r.run.locals.currentHumidity = m.locals.currentHumidity ∧
      r.run.locals.currentTemperature = m.locals.currentTemperature ∧
      r.run.locals.checkSum = m.locals.checkSum ∧ r.run.locals.i = m.locals.i := by
  have h1 := pollLoop_reset line false 35 m
  cases hp : pollLoop line false 35 loopFuel (resetRetryCount m) with
  | none =>
    rw [hp] at h1
    simp only at h1
    have hF : sampleBitFrom line m = none := by simp only [sampleBitFrom, hp]
    have hS : sampleBit line m.locals.i m.toAcq = none := by
      simp only [sampleBit, Run.toAcq, h1]
    rw [hF, hS]
    exact ⟨rfl, fun r hr => by simp at hr⟩
  | some e =>
    rw [hp] at h1
    cases e with
    | returned m1 =>
      obtain ⟨hw, hops, hbt1, hH1, hT1, hS1, hi1⟩ := h1
      have hF : sampleBitFrom line m =
          some (RunProgress.aborted DHT_ERROR_SYNC_TIMEOUT m1) := by
        simp only [sampleBitFrom, hp]
      have hS : sampleBit line m.locals.i m.toAcq =
          some (Progress.aborted DHT_ERROR_SYNC_TIMEOUT
            ⟨m.locals.bitTimes, m1.polls, m.pinOps⟩) := by
        simp only [sampleBit, Run.toAcq, hw]
      rw [hF, hS]
      constructor
      · simp only [Option.map_some', RunProgress.toProgress, Run.toAcq, hbt1, hops]
      · intro r hr
        simp only [Option.some.injEq] at hr
        subst hr
        exact ⟨hH1, hT1, hS1, hi1⟩
    | left m1 =>
      obtain ⟨hw, hops, hbt1, hH1, hT1, hS1, hi1⟩ := h1
      have h2 := pollLoop_reset line true 50 m1
      cases hp2 : pollLoop line true 50 loopFuel (resetRetryCount m1) with
      | none =>
        rw [hp2] at h2
        simp only at h2
        have hF : sampleBitFrom line m = none := by simp only [sampleBitFrom, hp, hp2]
        have hS : sampleBit line m.locals.i m.toAcq = none := by
          simp only [sampleBit, Run.toAcq, hw, h2]
        rw [hF, hS]
        exact ⟨rfl, fun r hr => by simp at hr⟩
      | some e2 =>
        rw [hp2] at h2
        cases e2 with
        | returned m2 =>
          obtain ⟨hw2, hops2, hbt2, hH2, hT2, hS2, hi2⟩ := h2
          have hF : sampleBitFrom line m =
              some (RunProgress.aborted DHT_ERROR_DATA_TIMEOUT m2) := by
            simp only [sampleBitFrom, hp, hp2]
          have hS : sampleBit line m.locals.i m.toAcq =
              some (Progress.aborted DHT_ERROR_DATA_TIMEOUT
                ⟨m.locals.bitTimes, m2.polls, m.pinOps⟩) := by
            simp only [sampleBit, Run.toAcq, hw, hw2]
          rw [hF, hS]
          constructor
          · simp only [Option.map_some', RunProgress.toProgress, Run.toAcq, hbt2, hbt1, hops2,
              hops]
          · intro r hr
            simp only [Option.some.injEq] at hr
            subst hr
            exact ⟨hH2.trans hH1, hT2.trans hT1, hS2.trans hS1, hi2.trans hi1⟩
        | left m2 =>
          obtain ⟨hw2, hops2, hbt2, hH2, hT2, hS2, hi2⟩ := h2
          have hF : sampleBitFrom line m =
              some (RunProgress.running
                { m2 with locals :=
                  { m2.locals with
                    bitTimes := m2.locals.bitTimes.set m2.locals.i m2.locals.retryCount } }) := by
            simp only [sampleBitFrom, hp, hp2]
          have hS : sampleBit line m.locals.i m.toAcq =
              some (Progress.running
                ⟨m.locals.bitTimes.set m.locals.i m2.locals.retryCount, m2.polls,
                  m.pinOps⟩) := by
            simp only [sampleBit, Run.toAcq, hw, hw2]
          rw [hF, hS]
          constructor
          · simp only [Option.map_some', RunProgress.toProgress, Run.toAcq, hbt2, hbt1, hops2,
              hops, hi2, hi1]
          · intro r hr
            simp only [Option.some.injEq] at hr
            subst hr
            exact ⟨hH2.trans hH1, hT2.trans hT1, hS2.trans hS1, hi2.trans hi1⟩

theorem sampleBitsFrom_sim (line : Line) (m : Run) :
    ∀ n, (sampleBitsFrom line n m).map RunProgress.toProgress = sampleBits line n m.toAcq ∧
      ∀ r, sampleBitsFrom line n m = some r →
        r.run.locals.currentHumidity = m.locals.currentHumidity ∧
        r.run.locals.currentTemperature = m.locals.currentTemperature ∧
        r.run.locals.checkSum = m.locals.checkSum ∧
        ∀ m1, r = RunProgress.running m1 → m1.locals.i = n := by
  intro n
  induction n with
  | zero =>
    constructor
    · rfl
    · intro r hr
      simp only [sampleBitsFrom, Option.some.injEq] at hr
      subst hr
      refine ⟨rfl, rfl, rfl, ?_⟩
      intro m1 h1
      simp only [RunProgress.running.injEq] at h1
      subst h1
      rfl
  | succ n ih =>
    obtain ⟨ih1, ih2⟩ := ih
    cases hs : sampleBitsFrom line n m with
    | none =>
      rw [hs] at ih1
      constructor
      · simp [sampleBitsFrom, sampleBits, hs, ← ih1]
      · intro r hr
        simp [sampleBitsFrom, hs] at hr
    | some r0 =>
      rw [hs] at ih1
      obtain ⟨a1, a2, a3, a4⟩ := ih2 r0 hs
      cases r0 with
      | aborted e m1 =>
        constructor
        · simp [sampleBitsFrom, sampleBits, hs, ← ih1, RunProgress.toProgress]
        · intro r hr
          simp only [sampleBitsFrom, hs, Option.some.injEq] at hr
          subst hr
          refine ⟨a1, a2, a3, ?_⟩
          intro m2 h2
          simp at h2
      | running m1 =>
        have hi : m1.locals.i = n := a4 m1 rfl
        obtain ⟨b1, b2⟩ := sampleBitFrom_sim line m1
        rw [hi] at b1
        simp only [RunProgress.run] at a1 a2 a3
        have hstep : sampleBits line (n + 1) m.toAcq = sampleBit line n m1.toAcq := by
          simp [sampleBits, ← ih1, RunProgress.toProgress]
        cases hb : sampleBitFrom line m1 with
        | none =>
          rw [hb] at b1
          constructor
          · simp [sampleBitsFrom, hs, hb, hstep, ← b1]
          · intro r hr
            simp [sampleBitsFrom, hs, hb] at hr
        | some r1 =>
          rw [hb] at b1
          obtain ⟨c1, c2, c3, c4⟩ := b2 r1 hb
          cases r1 with
          | aborted e m2 =>
            constructor
            · simp [sampleBitsFrom, hs, hb, hstep, ← b1]
            · intro r hr
              simp only [sampleBitsFrom, hs, hb, Option.some.injEq] at hr
              subst hr
              simp only [RunProgress.run] at c1 c2 c3 ⊢
              refine ⟨c1.trans a1, c2.trans a2, c3.trans a3, ?_⟩
              intro m3 h3
              simp at h3
          | running m2 =>
            constructor
            · simp only [sampleBitsFrom, hs, hb, hstep, ← b1]
              rfl
            · intro r hr
              simp only [sampleBitsFrom, hs, hb, Option.some.injEq] at hr
              subst hr
              simp only [RunProgress.run] at c1 c2 c3 c4 ⊢
              refine ⟨c1.trans a1, c2.trans a2, c3.trans a3, ?_⟩
              intro m3 h3
              simp only [RunProgress.running.injEq] at h3
              subst h3
              simp only
              omega


theorem handshakeRun_sim (line : Line) (m : Run) (hp0 : m.polls = 0)
    (hops0 : m.pinOps = [PinOp.THERM_INPUT_MODE])
    (hbt : m.locals.bitTimes = List.replicate DHT22_DATA_BIT_COUNT 0) :
    (handshakeRun line m).map RunProgress.toProgress = handshake line ∧
    ∀ r, handshakeRun line m = some r →
      r.run.locals.currentHumidity = m.locals.currentHumidity ∧
      r.run.locals.currentTemperature = m.locals.currentTemperature ∧
      r.run.locals.checkSum = m.locals.checkSum := by
  have h1 := pollLoop_reset line false 125 m
  rw [hp0] at h1
  cases hp : pollLoop line false 125 loopFuel (resetRetryCount m) with
  | none =>
    rw [hp] at h1
    simp only at h1
    have hF : handshakeRun line m = none := by simp only [handshakeRun, hp]
    have hH : handshake line = none := by simp only [handshake, h1]
    rw [hF, hH]
    exact ⟨rfl, fun r hr => by simp at hr⟩
  | some e =>
    rw [hp] at h1
    cases e with
    | returned m1 =>
      obtain ⟨hw, hops, e1, hH1, hT1, hS1, _⟩ := h1
      have hF : handshakeRun line m = some (RunProgress.aborted DHT_BUS_HUNG m1) := by
        simp only [handshakeRun, hp]
      have hH : handshake line = some (Progress.aborted DHT_BUS_HUNG
          ⟨List.replicate DHT22_DATA_BIT_COUNT 0, m1.polls, [PinOp.THERM_INPUT_MODE]⟩) := by
        simp only [handshake, hw]
      rw [hF, hH]
      constructor
      · simp only [Option.map_some', RunProgress.toProgress, Run.toAcq, e1, hbt, hops, hops0]
      · intro r hr
        simp only [Option.some.injEq] at hr
        subst hr
        exact ⟨hH1, hT1, hS1⟩
    | left m1 =>
      obtain ⟨hw, hops, e1, hH1, hT1, hS1, _⟩ := h1
      have h2 := pollLoop_reset line false 25
        { m1 with pinOps := m1.pinOps ++
          [PinOp.THERM_LOW, PinOp.THERM_OUTPUT_MODE, PinOp.THERM_INPUT_MODE] }
      cases hp2 : pollLoop line false 25 loopFuel (resetRetryCount
          { m1 with pinOps := m1.pinOps ++
            [PinOp.THERM_LOW, PinOp.THERM_OUTPUT_MODE, PinOp.THERM_INPUT_MODE] }) with
      | none =>
        rw [hp2] at h2
        simp only at h2
        have hF : handshakeRun line m = none := by simp only [handshakeRun, hp, hp2]
        have hH : handshake line = none := by simp only [handshake, hw, h2]
        rw [hF, hH]
        exact ⟨rfl, fun r hr => by simp at hr⟩
      | some e2 =>
        rw [hp2] at h2
        cases e2 with
        | returned m2 =>
          obtain ⟨hw2, hops2, e2, hH2, hT2, hS2, _⟩ := h2
          simp only at hw2 hops2 e2 hH2 hT2 hS2
          have hF : handshakeRun line m =
              some (RunProgress.aborted DHT_ERROR_NOT_PRESENT m2) := by
            simp only [handshakeRun, hp, hp2]
          have hH : handshake line = some (Progress.aborted DHT_ERROR_NOT_PRESENT
              ⟨List.replicate DHT22_DATA_BIT_COUNT 0, m2.polls,
                [PinOp.THERM_INPUT_MODE] ++
                  [PinOp.THERM_LOW, PinOp.THERM_OUTPUT_MODE, PinOp.THERM_INPUT_MODE]⟩) := by
            simp only [handshake, hw, hw2]
          rw [hF, hH]
          constructor
          · simp only [Option.map_some', RunProgress.toProgress, Run.toAcq, e2, e1, hbt, hops2,
              hops, hops0]
          · intro r hr
            simp only [Option.some.injEq] at hr
            subst hr
            exact ⟨hH2.trans hH1, hT2.trans hT1, hS2.trans hS1⟩
        | left m2 =>
          obtain ⟨hw2, hops2, e2, hH2, hT2, hS2, _⟩ := h2
          simp only at hw2 hops2 e2 hH2 hT2 hS2
          have h3 := pollLoop_reset line true 50 m2
          cases hp3 : pollLoop line true 50 loopFuel (resetRetryCount m2) with
          | none =>
            rw [hp3] at h3
            simp only at h3
            have hF : handshakeRun line m = none := by simp only [handshakeRun, hp, hp2, hp3]
            have hH : handshake line = none := by simp only [handshake, hw, hw2, h3]
            rw [hF, hH]
            exact ⟨rfl, fun r hr => by simp at hr⟩
          | some e3 =>
            rw [hp3] at h3
            cases e3 with
            | returned m3 =>
              obtain ⟨hw3, hops3, e3, hH3, hT3, hS3, _⟩ := h3
              have hF : handshakeRun line m =
                  some (RunProgress.aborted DHT_ERROR_ACK_TOO_LONG m3) := by
                simp only [handshakeRun, hp, hp2, hp3]
              have hH : handshake line = some (Progress.aborted DHT_ERROR_ACK_TOO_LONG
                  ⟨List.replicate DHT22_DATA_BIT_COUNT 0, m3.polls,
                    [PinOp.THERM_INPUT_MODE] ++
                      [PinOp.THERM_LOW, PinOp.THERM_OUTPUT_MODE, PinOp.THERM_INPUT_MODE]⟩) := by
                simp only [handshake, hw, hw2, hw3]
              rw [hF, hH]
              constructor
              · simp only [Option.map_some', RunProgress.toProgress, Run.toAcq, e3, e2, e1, hbt,
                  hops3, hops2, hops, hops0]
              · intro r hr
                simp only [Option.some.injEq] at hr
                subst hr
                exact ⟨(hH3.trans hH2).trans hH1, (hT3.trans hT2).trans hT1, (hS3.trans hS2).trans hS1⟩
            | left m3 =>
              obtain ⟨hw3, hops3, e3, hH3, hT3, hS3, _⟩ := h3
              have hF : handshakeRun line m = some (RunProgress.running m3) := by
                simp only [handshakeRun, hp, hp2, hp3]
              have hH : handshake line = some (Progress.running
                  ⟨List.replicate DHT22_DATA_BIT_COUNT 0, m3.polls,
                    [PinOp.THERM_INPUT_MODE] ++
                      [PinOp.THERM_LOW, PinOp.THERM_OUTPUT_MODE, PinOp.THERM_INPUT_MODE]⟩) := by
                simp only [handshake, hw, hw2, hw3]
              rw [hF, hH]
              constructor
              · simp only [Option.map_some', RunProgress.toProgress, Run.toAcq, e3, e2, e1, hbt,
                  hops3, hops2, hops, hops0]
              · intro r hr
                simp only [Option.some.injEq] at hr
                subst hr
                exact ⟨(hH3.trans hH2).trans hH1, (hT3.trans hT2).trans hT1, (hS3.trans hS2).trans hS1⟩


theorem acquireFrom_sim (entry : Locals) (line : Line)
    (hlen : entry.bitTimes.length = DHT22_DATA_BIT_COUNT) :
    (acquireFrom entry line).map RunProgress.toProgress = acquire line ∧
    ∀ r, acquireFrom entry line = some r →
      r.run.locals.currentHumidity = 0 ∧ r.run.locals.currentTemperature = 0 ∧
      r.run.locals.checkSum = 0 := by
  have hb : (entryRun entry).locals.bitTimes = List.replicate DHT22_DATA_BIT_COUNT 0 := by
    simp only [entryRun]
    exact clearBitTimes_eq entry.bitTimes hlen
  have hp0 : (entryRun entry).polls = 0 := by simp only [entryRun]
  have hops0 : (entryRun entry).pinOps = [PinOp.THERM_INPUT_MODE] := by simp only [entryRun]
  have z1 : (entryRun entry).locals.currentHumidity = 0 := by simp only [entryRun]
  have z2 : (entryRun entry).locals.currentTemperature = 0 := by simp only [entryRun]
  have z3 : (entryRun entry).locals.checkSum = 0 := by simp only [entryRun]
  obtain ⟨h1, h2⟩ := handshakeRun_sim line (entryRun entry) hp0 hops0 hb
  cases hh : handshakeRun line (entryRun entry) with
  | none =>
    rw [hh] at h1
    have hF : acquireFrom entry line = none := by simp only [acquireFrom, handshakeFrom, hh]
    have hA : acquire line = none := by simp only [acquire, ← h1, Option.map_none']
    rw [hF, hA]
    exact ⟨rfl, fun r hr => by simp at hr⟩
  | some r0 =>
    rw [hh] at h1
    obtain ⟨a1, a2, a3⟩ := h2 r0 hh
    rw [z1] at a1
    rw [z2] at a2
    rw [z3] at a3
    cases r0 with
    | aborted e m1 =>
      have hF : acquireFrom entry line = some (RunProgress.aborted e m1) := by
        simp only [acquireFrom, handshakeFrom, hh]
      have hA : acquire line = some (Progress.aborted e m1.toAcq) := by
        simp only [acquire, ← h1, Option.map_some', RunProgress.toProgress]
      rw [hF, hA]
      constructor
      · rfl
      · intro r hr
        simp only [Option.some.injEq] at hr
        subst hr
        exact ⟨a1, a2, a3⟩
    | running m1 =>
      have hF : acquireFrom entry line = sampleBitsFrom line DHT22_DATA_BIT_COUNT m1 := by
        simp only [acquireFrom, handshakeFrom, hh]
      have hA : acquire line = sampleBits line DHT22_DATA_BIT_COUNT m1.toAcq := by
        simp only [acquire, ← h1, Option.map_some', RunProgress.toProgress]
      obtain ⟨b1, b2⟩ := sampleBitsFrom_sim line m1 DHT22_DATA_BIT_COUNT
      rw [hF, hA]
      refine ⟨b1, ?_⟩
      intro r hr
      obtain ⟨c1, c2, c3, _⟩ := b2 r hr
      simp only [RunProgress.run] at a1 a2 a3
      exact ⟨c1.trans a1, c2.trans a2, c3.trans a3⟩

/-- With the accumulators at 0, as lines 38-40 leave them, the decoding on the machine
state gives the outcome of `decode`. -/
theorem decodeFrom_fst (m : Run) (hH : m.locals.currentHumidity = 0)
    (hT : m.locals.currentTemperature = 0) (hS : m.locals.checkSum = 0) :
    (decodeFrom m).1 = decode m.toAcq := by
  have e1 : gatherBitsFrom m.locals.bitTimes 16 1 15 m.locals.currentHumidity =
      currentHumidity m.locals.bitTimes := by rw [hH]; rfl
  have e2 : gatherBitsFrom m.locals.bitTimes 16 17 15 m.locals.currentTemperature =
      currentTemperature m.locals.bitTimes := by rw [hT]; rfl
  have e3 : gatherBitsFrom m.locals.bitTimes 8 33 7 m.locals.checkSum =
      checkSum m.locals.bitTimes := by rw [hS]; rfl
  simp only [decodeFrom, decode, Run.toAcq, e1, e2, e3]
  by_cases hneg : (currentTemperature m.locals.bitTimes &&& 32768 != 0) = true
  · simp only [hneg, if_true]
  · simp only [hneg, Bool.false_eq_true, if_false]

theorem decodeFrom_snd_bitTimes (m : Run) : (decodeFrom m).2.bitTimes = m.locals.bitTimes := by
  simp only [decodeFrom]
  split <;> rfl

/-- Whatever the locals hold at entry, the call returns the outcome of `dht22_read`. -/
theorem dht22_read_from_fst (entry : Locals) (line : Line) (t h : ℚ)
    (hlen : entry.bitTimes.length = DHT22_DATA_BIT_COUNT) :
    (dht22_read_from entry line t h).map Prod.fst = dht22_read line t h := by
  obtain ⟨h1, h2⟩ := acquireFrom_sim entry line hlen
  cases ha : acquireFrom entry line with
  | none =>
    rw [ha] at h1
    simp only [dht22_read_from, dht22_read, ha, ← h1, Option.map_none']
  | some r =>
    rw [ha] at h1
    obtain ⟨a1, a2, a3⟩ := h2 r ha
    cases r with
    | aborted e m =>
      simp only [dht22_read_from, dht22_read, ha, ← h1, Option.map_some',
        RunProgress.toProgress, Run.toAcq]
    | running m =>
      simp only [dht22_read_from, dht22_read, ha, ← h1, Option.map_some',
        RunProgress.toProgress]
      rw [decodeFrom_fst m a1 a2 a3]

/-- The array `bitTimes` that a call leaves is the one its outcome records. -/
theorem dht22_read_from_bitTimes (entry : Locals) (line : Line) (t h : ℚ) (o : Outcome)
    (v : Locals) (hr : dht22_read_from entry line t h = some (o, v)) :
    v.bitTimes = o.bitTimes := by
  cases ha : acquireFrom entry line with
  | none => simp [dht22_read_from, ha] at hr
  | some r =>
    cases r with
    | aborted e m =>
      simp only [dht22_read_from, ha, Option.some.injEq, Prod.mk.injEq] at hr
      obtain ⟨h1, h2⟩ := hr
      subst h1 h2
      rfl
    | running m =>
      simp only [dht22_read_from, ha, Option.some.injEq] at hr
      have h1 : o = (decodeFrom m).1 := by rw [hr]
      have h2 : v = (decodeFrom m).2 := by rw [hr]
      rw [h1, h2, decodeFrom_snd_bitTimes]
      simp only [decodeFrom]
      split <;> rfl

/-- The array `bitTimes` keeps its 41 entries throughout. -/
theorem dht22_read_bitTimes_length (line : Line) (t h : ℚ) (o : Outcome)
    (hr : dht22_read line t h = some o) : o.bitTimes.length = DHT22_DATA_BIT_COUNT := by
  have key : ∀ r, acquire line = some r →
      match r with
      | Progress.running s => s.bitTimes.length = DHT22_DATA_BIT_COUNT
      | Progress.aborted _ s => s.bitTimes.length = DHT22_DATA_BIT_COUNT := by
    intro r hacq
    rcases handshake_cases line with ⟨_, hh⟩ | ⟨j, _, _, _, _, r0, hr0, hinv⟩
    · rw [acquire_of_handshake_aborted line _ _ hh] at hacq
      simp only [Option.some.injEq] at hacq
      subst hacq
      simp
    · cases r0 with
      | aborted e s =>
        rw [acquire_of_handshake_aborted line _ _ hr0] at hacq
        simp only [Option.some.injEq] at hacq
        subst hacq
        simp only
        rw [hinv.2.1]
        simp
      | running s =>
        rw [acquire_of_handshake_running line s hr0] at hacq
        obtain ⟨r2, hr2, hinv2⟩ := sampleBits_inv line s DHT22_DATA_BIT_COUNT
        rw [hacq] at hr2
        simp only [Option.some.injEq] at hr2
        subst hr2
        have hs : s.bitTimes.length = DHT22_DATA_BIT_COUNT := by
          rw [hinv.1]
          simp
        cases r with
        | running s2 =>
          simp only at hinv2 ⊢
          rw [hinv2.2.1, hs]
        | aborted e s2 =>
          simp only at hinv2 ⊢
          rw [hinv2.2.2.1, hs]
  rcases dht22_read_cases line t h with ⟨e, st, ha, _, hr2⟩ | ⟨st, ha, hr2⟩
  · have : o = _ := Option.some.inj (hr.symm.trans hr2)
    subst this
    exact key _ ha
  · have : o = _ := Option.some.inj (hr.symm.trans hr2)
    subst this
    rw [(decode_frame st).1]
    exact key _ ha


theorem map_fst_eq_some {α β : Type} {x : Option (α × β)} {a : α}
    (h : x.map Prod.fst = some a) : ∃ b, x = some (a, b) := by
  cases x with
  | none => simp at h
  | some p =>
    obtain ⟨a2, b⟩ := p
    simp only [Option.map_some', Option.some.injEq] at h
    subst h
    exact ⟨b, rfl⟩

/-- C15 (no hidden state).  Let a call be entered with its locals holding anything
(`entry`, an array of 41 entries among them), observe the levels `line1`, return outcome
`o1` and leave its locals as `left1`.  A further call, entered with the locals as the
first call left them and with anything in the outputs, that observes the identical
sequence of levels returns the same code after the same polls with the same samples and
pin operations, and whenever the samples are decoded (success, or the checksum error) it
delivers the same humidity and temperature.  The outcome `o1` itself does not depend on
what the locals held at entry: every other entry state gives `o1`, which is the outcome
of `dht22_read`. -/
theorem C15_no_hidden_state (entry : Locals) (line1 line2 : Line) (t1 h1 t2 h2 : ℚ)
    (o1 : Outcome) (left1 : Locals)
    (hentry : entry.bitTimes.length = DHT22_DATA_BIT_COUNT)
    (hsame : ∀ n, line1 n = line2 n)
    (hfirst : dht22_read_from entry line1 t1 h1 = some (o1, left1)) :
    (∃ o2 left2, dht22_read_from left1 line2 t2 h2 = some (o2, left2) ∧
      o2.result = o1.result ∧ o2.bitTimes = o1.bitTimes ∧ o2.polls = o1.polls ∧
      o2.pinOps = o1.pinOps ∧
      (o1.result = DHT_ERROR_NONE ∨ o1.result = DHT_ERROR_CHECKSUM →
        o2.humidity = o1.humidity ∧ o2.temperature = o1.temperature)) ∧
    (∀ other : Locals, other.bitTimes.length = DHT22_DATA_BIT_COUNT →
      ∃ left3, dht22_read_from other line1 t1 h1 = some (o1, left3)) ∧
    dht22_read line1 t1 h1 = some o1 := by
  have hl : line1 = line2 := funext hsame
  subst hl
  have hmain : dht22_read line1 t1 h1 = some o1 := by
    rw [← dht22_read_from_fst entry line1 t1 h1 hentry, hfirst]
    rfl
  have hlen1 : left1.bitTimes.length = DHT22_DATA_BIT_COUNT := by
    rw [dht22_read_from_bitTimes entry line1 t1 h1 o1 left1 hfirst]
    exact dht22_read_bitTimes_length line1 t1 h1 o1 hmain
  refine ⟨?_, ?_, hmain⟩
  · have hsecond := dht22_read_from_fst left1 line1 t2 h2 hlen1
    rcases dht22_read_cases line1 t1 h1 with ⟨e, st, ha, he, hr⟩ | ⟨st, ha, hr⟩
    · have : o1 = _ := Option.some.inj (hmain.symm.trans hr)
      subst this
      rw [dht22_read_of_acquire_aborted line1 t2 h2 e st ha] at hsecond
      obtain ⟨left2, h2nd⟩ := map_fst_eq_some hsecond
      refine ⟨_, left2, h2nd, rfl, rfl, rfl, rfl, ?_⟩
      intro hdec
      simp only at hdec
      rcases hdec with hdec | hdec <;> subst hdec <;> simp at he
    · have : o1 = _ := Option.some.inj (hmain.symm.trans hr)
      subst this
      rw [dht22_read_of_acquire_running line1 t2 h2 st ha] at hsecond
      obtain ⟨left2, h2nd⟩ := map_fst_eq_some hsecond
      exact ⟨_, left2, h2nd, rfl, rfl, rfl, rfl, fun _ => ⟨rfl, rfl⟩⟩
  · intro other hother
    have h3 := dht22_read_from_fst other line1 t1 h1 hother
    rw [hmain] at h3
    exact map_fst_eq_some h3

/-- Witness for C15: a call entered with stale locals on the clean transmission of
0x01F4, 0x00C8, 0xBD, then a second call entered with what the first one left and with
other values in the outputs. -/
theorem C15_no_hidden_state_witness :
    ∃ o1 left1 o2 left2,
      dht22_read_from staleLocals (lineOf (frame 0x01F4 0x00C8 0xBD)) 0 0 = some (o1, left1) ∧
      dht22_read_from left1 (lineOf (frame 0x01F4 0x00C8 0xBD)) 3 4 = some (o2, left2) ∧
      o1.result = DHT_ERROR_NONE ∧ o2.result = DHT_ERROR_NONE ∧
      o2.humidity = o1.humidity ∧ o2.temperature = o1.temperature := by
  obtain ⟨left1, hfirst⟩ := map_fst_eq_some
    ((dht22_read_from_fst staleLocals (lineOf (frame 0x01F4 0x00C8 0xBD)) 0 0 (by decide)).trans
      (dht22_read_of_acquire_running _ 0 0 _ acquire_frame_a))
  obtain ⟨⟨o2, left2, e1, e2, _, _, _, e3⟩, _, _⟩ :=
    C15_no_hidden_state staleLocals (lineOf (frame 0x01F4 0x00C8 0xBD))
      (lineOf (frame 0x01F4 0x00C8 0xBD)) 0 0 3 4 (decode (frameAcq 0x01F4 0x00C8 0xBD)) left1
      (by decide) (fun _ => rfl) hfirst
  have hok : (decode (frameAcq 0x01F4 0x00C8 0xBD)).result = DHT_ERROR_NONE := by decide
  exact ⟨_, left1, o2, left2, hfirst, e1, hok, e2.trans hok, e3 (Or.inl hok)⟩

/-! ## The checksum the code computes (C17) -/

theorem low_byte_and_32767 (x : Nat) : low_byte (x &&& 0x7FFF) = low_byte x := by
  rw [and_32767]
  unfold low_byte
  omega

/-- C17 (the checksum of a negative temperature).  Whenever all 41 samples are acquired
and bit 15 of the temperature word `T` (samples 17..32) is set, `dht22_read` returns
`DHT_ERROR_NONE` if and only if the checksum byte (samples 33..40) equals
`(high_byte(H) + low_byte(H) + high_byte(T & 0x7FFF) + low_byte(T)) mod 256`, with `H`
the humidity word (samples 1..16) unmasked, and returns `DHT_ERROR_CHECKSUM` otherwise. -/
theorem C17_checksum_of_negative (line : Line) (t h : ℚ) (st : Acq)
    (ha : acquire line = some (Progress.running st))
    (hneg : (specField st.bitTimes 17 16).testBit 15 = true) :
    ∃ o, dht22_read line t h = some o ∧
      (o.result = DHT_ERROR_NONE ↔
        specField st.bitTimes 33 8 =
          (high_byte (specField st.bitTimes 1 16) + low_byte (specField st.bitTimes 1 16) +
            high_byte (specField st.bitTimes 17 16 &&& 0x7FFF) +
            low_byte (specField st.bitTimes 17 16)) % 256) ∧
      (o.result ≠ DHT_ERROR_NONE → o.result = DHT_ERROR_CHECKSUM) := by
  refine ⟨decode st, dht22_read_of_acquire_running line t h st ha, ?_, ?_⟩
  · rw [decode_result_iff, if_pos hneg, specChecksum, low_byte_and_32767]
  · intro hne
    rcases decode_result st with h1 | h1
    · exact h1
    · exact absurd h1 hne

/-- Witness for C17: the transmission of 0x01F4, 0x80C8 with checksum byte 0xBD, the sum
taken with bit 15 of the temperature word cleared, is accepted. -/
theorem C17_checksum_of_negative_witness :
    (high_byte 0x01F4 + low_byte 0x01F4 + high_byte (0x80C8 &&& 0x7FFF) + low_byte 0x80C8)
        % 256 = 0xBD ∧
    ∃ o, dht22_read (lineOf (frame 0x01F4 0x80C8 0xBD)) 0 0 = some o ∧
      o.result = DHT_ERROR_NONE := by
  refine ⟨by decide, ?_⟩
  obtain ⟨o, e1, e2, _⟩ :=
    C17_checksum_of_negative (lineOf (frame 0x01F4 0x80C8 0xBD)) 0 0
      (frameAcq 0x01F4 0x80C8 0xBD) acquire_frame_c (by decide)
  exact ⟨o, e1, e2.mpr (by decide)⟩

/-! ## The range of the samples (C18) -/

/-- If iteration `n` of the sampling loop is reached and completes, the loop was running
before it. -/
theorem sampleBits_running_pred (line : Line) (n : Nat) (st s1 : Acq)
    (h : sampleBits line (n + 1) st = some (Progress.running s1)) :
    ∃ s, sampleBits line n st = some (Progress.running s) ∧
      sampleBit line n s = some (Progress.running s1) := by
  obtain ⟨r, hr⟩ := sampleBits_total line n st
  cases r with
  | aborted e s =>
    rw [sampleBits_succ_of_aborted line n st s e hr] at h
    simp at h
  | running s =>
    rw [sampleBits_succ_of_running line n st s hr] at h
    exact ⟨s, hr, h⟩

/-- An iteration that completes stores the number of polls its pulse measurement made,
between 1 and 51, and nothing else. -/
theorem sampleBit_running (line : Line) (i : Nat) (s s1 : Acq)
    (h : sampleBit line i s = some (Progress.running s1)) :
    ∃ r q v, waitWhile line false 35 loopFuel 0 s.polls = some (Wait.done r q) ∧
      1 ≤ v ∧ v ≤ 51 ∧ s1.polls = q + v ∧ s1.bitTimes = s.bitTimes.set i v := by
  rcases sampleBit_cases line i s with ⟨_, hs⟩ | ⟨j, _, _, _, hw, ⟨_, hs⟩ | ⟨m, hm, _, _, hs⟩⟩
  · rw [hs] at h; simp at h
  · rw [hs] at h; simp at h
  · rw [hs] at h
    simp only [Option.some.injEq, Progress.running.injEq] at h
    subst h
    exact ⟨_, _, m + 1, hw, by omega, by omega, rfl, rfl⟩

theorem sampleBits_range (line : Line) (st : Acq) :
    ∀ n s, n ≤ st.bitTimes.length → sampleBits line n st = some (Progress.running s) →
      ∀ j, j < n → 1 ≤ s.bitTimes.getD j 0 ∧ s.bitTimes.getD j 0 ≤ 51 := by
  intro n
  induction n with
  | zero => intro s _ _ j hj; omega
  | succ n ih =>
    intro s1 hlen h j hj
    obtain ⟨s, hs, hb⟩ := sampleBits_running_pred line n st s1 h
    obtain ⟨r, q, v, _, hv1, hv2, _, hbt⟩ := sampleBit_running line n s s1 hb
    have hslen : s.bitTimes.length = st.bitTimes.length := by
      obtain ⟨r2, hr2, hinv⟩ := sampleBits_inv line st n
      rw [hs] at hr2
      simp only [Option.some.injEq] at hr2
      subst hr2
      exact hinv.2.1
    rw [hbt]
    by_cases hjn : n = j
    · subst hjn
      rw [List.getD_eq_getElem?_getD, List.getElem?_set_self (by omega)]
      exact ⟨hv1, hv2⟩
    · rw [List.getD_eq_getElem?_getD, List.getElem?_set_ne hjn, ← List.getD_eq_getElem?_getD]
      exact ih s (by omega) hs j (by omega)

/-- C18 (range of the samples).  Whenever the pulse measurement of a bit index `i`
completes, the value stored in `bitTimes[i]` is the number of polls that measurement
made, and it lies between 1 and 51: never 0, and far from the wrap-around of the 8-bit
counter.  On every run that reaches the decoding, `bitTimes` has its 41 entries, each
overwritten with such a value. -/
theorem C18_sample_range (line : Line) :
    (∀ i st0 st st1, i ≤ 40 → handshake line = some (Progress.running st0) →
      sampleBits line i st0 = some (Progress.running st) →
      sampleBits line (i + 1) st0 = some (Progress.running st1) →
      (∃ r q, waitWhile line false 35 loopFuel 0 st.polls = some (Wait.done r q) ∧
        st1.polls = q + st1.bitTimes.getD i 0) ∧
      1 ≤ st1.bitTimes.getD i 0 ∧ st1.bitTimes.getD i 0 ≤ 51 ∧
      st1.bitTimes.getD i 0 < 256) ∧
    (∀ st, acquire line = some (Progress.running st) →
      st.bitTimes.length = 41 ∧
      ∀ i, i < 41 → 1 ≤ st.bitTimes.getD i 0 ∧ st.bitTimes.getD i 0 ≤ 51) := by
  constructor
  · intro i st0 st st1 hi hhs hbits hnext
    have hlen0 : st0.bitTimes.length = 41 := by
      rw [handshake_running_bitTimes line st0 hhs]
      simp [DHT22_DATA_BIT_COUNT]
    rw [sampleBits_succ_of_running line i st0 st hbits] at hnext
    obtain ⟨r, q, v, hw, hv1, hv2, hp, hbt⟩ := sampleBit_running line i st st1 hnext
    have hslen : st.bitTimes.length = st0.bitTimes.length := by
      obtain ⟨r2, hr2, hinv⟩ := sampleBits_inv line st0 i
      rw [hbits] at hr2
      simp only [Option.some.injEq] at hr2
      subst hr2
      exact hinv.2.1
    have hget : st1.bitTimes.getD i 0 = v := by
      rw [hbt, List.getD_eq_getElem?_getD, List.getElem?_set_self (by omega)]
      rfl
    rw [hget]
    exact ⟨⟨r, q, hw, hp⟩, hv1, hv2, by omega⟩
  · intro st ha
    rcases handshake_cases line with ⟨_, hh⟩ | ⟨j, _, _, _, _, r, hr, hinv⟩
    · rw [acquire_of_handshake_aborted line _ _ hh] at ha
      simp at ha
    · cases r with
      | aborted e s =>
        rw [acquire_of_handshake_aborted line _ _ hr] at ha
        simp at ha
      | running s =>
        rw [acquire_of_handshake_running line s hr] at ha
        have hlen0 : s.bitTimes.length = 41 := by
          rw [hinv.1]
          simp [DHT22_DATA_BIT_COUNT]
        have hlen : st.bitTimes.length = s.bitTimes.length := by
          obtain ⟨r2, hr2, hinv2⟩ := sampleBits_inv line s DHT22_DATA_BIT_COUNT
          rw [ha] at hr2
          simp only [Option.some.injEq] at hr2
          subst hr2
          exact hinv2.2.1
        refine ⟨by omega, ?_⟩
        intro i hi
        exact sampleBits_range line s DHT22_DATA_BIT_COUNT st
          (by unfold DHT22_DATA_BIT_COUNT; omega) ha i hi

/-- Witness for C18: on the clean transmission of 0x01F4, 0x00C8, 0xBD all 41 samples
lie between 1 and 51. -/
theorem C18_sample_range_witness :
    (frameAcq 0x01F4 0x00C8 0xBD).bitTimes.length = 41 ∧
    ∀ i, i < 41 → 1 ≤ (frameAcq 0x01F4 0x00C8 0xBD).bitTimes.getD i 0 ∧
      (frameAcq 0x01F4 0x00C8 0xBD).bitTimes.getD i 0 ≤ 51 :=
  (C18_sample_range (lineOf (frame 0x01F4 0x00C8 0xBD))).2 _ acquire_frame_a

end DHT22
